import Mathlib

/-!
Verification of the IMF-Test-Manager core against its specification.

The development shallowly embeds the two algorithmic components of the
repository:

* the complex-scenario execution engine (`src/core/scenario-executor.ts`):
  dependency-ordered step execution with a depth-first topological sort,
  per-step retry with linear backoff, dependency-gating, rollback on
  failure and result validation;
* the metric data generator (pattern-driven time-series production with
  per-pattern value functions, post-processing and metadata derivation).

JavaScript `Set`s are embedded as insertion-ordered duplicate-free lists,
`Map`s as insertion-ordered association lists, numbers as rationals, and
ambient randomness (`Math.random()`) and `Math.sin` as oracle functions
constrained by hypotheses (`0 ≤ r < 1`, `-1 ≤ sin ≤ 1`).  Asynchronous
handlers are abstracted as outcome oracles: per step and attempt number,
either a produced value or a thrown error message; timeouts are failures
like any other, exactly as in `executeWithTimeout`.  Wall-clock derived
fields of the result summary (durations, bottlenecks, recommendations)
are not modelled; no claim mentions them.
-/

namespace IMFTest

/-! ## Executor data model (`scenario-executor.ts`) -/

/-- Mutable run-time state for one workflow execution (`ExecutionContext`).
`completedSteps` and `failedSteps` embed JS `Set`s as insertion-ordered
lists; `stepResults` embeds the JS `Map` as an association list.  The
payload type of step results is a parameter `V`. -/
structure ExecutionContext (V : Type) where
  currentStep : String
  completedSteps : List String
  failedSteps : List String
  stepResults : List (String × V)
  completedCount : Nat
  failedCount : Nat
  skippedCount : Nat

/-- One unit of work in a workflow (`ExecutionStep`).  `condition` is the
optional skip predicate over the current context; `retries` bounds the
extra attempts after the first. -/
structure ExecutionStep (V : Type) where
  id : String
  name : String
  type : String
  dependencies : List String
  retries : Nat
  condition : Option (ExecutionContext V → Bool)

/-- Workflow definition handed to the executor (`ScenarioDefinition`).
`successCriteria` may throw, which the source catches inside
`validateWorkflowResults`; we embed it as an `Except`-valued function. -/
structure ScenarioDefinition (V : Type) where
  id : String
  steps : List (ExecutionStep V)
  requiredResults : List String
  successCriteria : List (String × V) → Except String Bool
  rollbackOnFailure : Bool

/-- JS `Set.add`: append if not already present. -/
def addSet (l : List String) (x : String) : List String :=
  if x ∈ l then l else l ++ [x]

/-- JS `Map.set`: replace the value under an existing key, else append. -/
def mapSet {V : Type} (l : List (String × V)) (k : String) (v : V) :
    List (String × V) :=
  if l.any (fun p => p.1 == k) then
    l.map (fun p => if p.1 == k then (k, v) else p)
  else l ++ [(k, v)]

/-- JS `Map.delete`: remove the binding for a key. -/
def mapDelete {V : Type} (l : List (String × V)) (k : String) :
    List (String × V) :=
  l.filter (fun p => ¬ p.1 = k)

/-! ## Topological ordering (`calculateExecutionOrder`) -/

/-- Errors thrown by `calculateExecutionOrder`.  The `fuel` constructor is
an artifact of embedding the unbounded JS recursion with explicit fuel; it
is proved unreachable for the fuel budget the entry point supplies. -/
inductive TopoErr where
  | circular (stepId : String)
  | notFound (stepId : String)
  | fuel
deriving DecidableEq

/-- Message carried by the thrown `Error` object. -/
def topoErrMsg : TopoErr → String
  | .circular stepId => "Circular dependency detected involving step: " ++ stepId
  | .notFound stepId => "Step not found: " ++ stepId
  | .fuel => "recursion depth exceeded"

/-- State of the depth-first search: the completed set, the in-progress
set, and the accumulated post-order result list. -/
structure TopoState where
  visited : List String
  visiting : List String
  result : List String
deriving DecidableEq

/-- Lookup in the `stepMap` built by `new Map(steps.map(s => [s.id, s]))`:
on duplicate ids the last occurrence wins. -/
def mapGet {V : Type} (steps : List (ExecutionStep V)) (stepId : String) :
    Option (ExecutionStep V) :=
  steps.reverse.find? (fun s => s.id == stepId)

/-- The `for (const depId of step.dependencies) visit(depId)` loop,
abstracted over the visitor so that the recursion stays structural. -/
def visitDepsF (f : String → TopoState → Except TopoErr TopoState) :
    List String → TopoState → Except TopoErr TopoState
  | [], st => .ok st
  | d :: ds, st =>
    match f d st with
    | .error e => .error e
    | .ok st2 => visitDepsF f ds st2

/-- The recursive `visit` closure of `calculateExecutionOrder`. -/
def visit {V : Type} (steps : List (ExecutionStep V)) :
    Nat → String → TopoState → Except TopoErr TopoState
  | 0, _, _ => .error .fuel
  | fuel + 1, stepId, st =>
    if stepId ∈ st.visiting then
      .error (.circular stepId)
    else if stepId ∈ st.visited then
      .ok st
    else
      match mapGet steps stepId with
      | none => .error (.notFound stepId)
      | some step =>
        match visitDepsF (visit steps fuel) step.dependencies
            { st with visiting := stepId :: st.visiting } with
        | .error e => .error e
        | .ok st2 =>
          .ok { visited := stepId :: st2.visited,
                visiting := st2.visiting.erase stepId,
                result := st2.result ++ [stepId] }

/-- The top-level `for (const step of steps)` loop of
`calculateExecutionOrder`.  Each unvisited step is visited with fuel
`steps.length + 1`, which is proved sufficient below. -/
def topoVisitAll {V : Type} (steps : List (ExecutionStep V)) :
    List (ExecutionStep V) → TopoState → Except TopoErr TopoState
  | [], st => .ok st
  | s :: rest, st =>
    if s.id ∈ st.visited then topoVisitAll steps rest st
    else
      match visit steps (steps.length + 1) s.id st with
      | .error e => .error e
      | .ok st2 => topoVisitAll steps rest st2

/-- Embedding of `calculateExecutionOrder`. -/
def calculateExecutionOrder {V : Type} (steps : List (ExecutionStep V)) :
    Except TopoErr (List String) :=
  match topoVisitAll steps steps ⟨[], [], []⟩ with
  | .error e => .error e
  | .ok st => .ok st.result

/-- Edge of the dependency graph: `a` depends on `b`, as resolved through
the step map. -/
def depEdge {V : Type} (steps : List (ExecutionStep V)) (a b : String) : Prop :=
  ∃ s, mapGet steps a = some s ∧ b ∈ s.dependencies

/-- A step set is closed when every dependency of every step resolves in
the step map; this is what makes the step/dependency structure a graph on
the steps. -/
def ClosedSteps {V : Type} (steps : List (ExecutionStep V)) : Prop :=
  ∀ s ∈ steps, ∀ d ∈ s.dependencies, (mapGet steps d).isSome = true

instance {V : Type} (steps : List (ExecutionStep V)) :
    Decidable (ClosedSteps steps) := by
  unfold ClosedSteps; infer_instance

/-! ### Unfolding equations for the fuelled recursion -/

theorem visit_zero {V : Type} (steps : List (ExecutionStep V)) (stepId : String)
    (st : TopoState) : visit steps 0 stepId st = .error .fuel := rfl

theorem visit_succ {V : Type} (steps : List (ExecutionStep V)) (fuel : Nat)
    (stepId : String) (st : TopoState) :
    visit steps (fuel + 1) stepId st =
      (if stepId ∈ st.visiting then
        .error (.circular stepId)
      else if stepId ∈ st.visited then
        .ok st
      else
        match mapGet steps stepId with
        | none => .error (.notFound stepId)
        | some step =>
          match visitDepsF (visit steps fuel) step.dependencies
              { st with visiting := stepId :: st.visiting } with
          | .error e => .error e
          | .ok st2 =>
            .ok { visited := stepId :: st2.visited,
                  visiting := st2.visiting.erase stepId,
                  result := st2.result ++ [stepId] }) := by
  rw [visit]

theorem visitDeps_nil (f : String → TopoState → Except TopoErr TopoState)
    (st : TopoState) : visitDepsF f [] st = .ok st := rfl

theorem visitDeps_cons (f : String → TopoState → Except TopoErr TopoState)
    (d : String) (ds : List String) (st : TopoState) :
    visitDepsF f (d :: ds) st =
      (match f d st with
      | .error e => .error e
      | .ok st2 => visitDepsF f ds st2) := rfl

/-! ### Invariants of the depth-first search -/

/-- The result list is duplicate-free, dependency-closed, and every entry
comes after all of its dependencies. -/
def GoodTopo {V : Type} (steps : List (ExecutionStep V)) (st : TopoState) : Prop :=
  st.result.Nodup ∧
  ∀ a b, depEdge steps a b → a ∈ st.result →
    b ∈ st.result ∧ st.result.indexOf b < st.result.indexOf a

/-- The `visited` set mirrors the `result` list. -/
def Coupled (st : TopoState) : Prop := st.visited = st.result.reverse

/-- Relationship between the state before and after a successful `visit`
or `visitDeps` call. -/
def OkExtends {V : Type} (steps : List (ExecutionStep V)) (st st2 : TopoState) : Prop :=
  st2.visiting = st.visiting ∧
  (∀ x ∈ st.visited, x ∈ st2.visited) ∧
  (∃ tail, st2.result = st.result ++ tail) ∧
  (∀ x ∈ st2.visited, x ∈ st.visited ∨ x ∉ st.visiting) ∧
  (Coupled st → Coupled st2) ∧
  (Coupled st → GoodTopo steps st → GoodTopo steps st2)

theorem okExtends_refl {V : Type} (steps : List (ExecutionStep V)) (st : TopoState) :
    OkExtends steps st st :=
  ⟨rfl, fun _ h => h, ⟨[], (List.append_nil _).symm⟩,
   fun _ h => Or.inl h, id, fun _ h => h⟩

theorem okExtends_trans {V : Type} (steps : List (ExecutionStep V))
    {st st2 st3 : TopoState}
    (h1 : OkExtends steps st st2) (h2 : OkExtends steps st2 st3) :
    OkExtends steps st st3 := by
  obtain ⟨v1, m1, ⟨t1, r1⟩, n1, c1, g1⟩ := h1
  obtain ⟨v2, m2, ⟨t2, r2⟩, n2, c2, g2⟩ := h2
  refine ⟨v2.trans v1, fun x hx => m2 x (m1 x hx),
    ⟨t1 ++ t2, by rw [r2, r1, List.append_assoc]⟩, ?_,
    fun hc => c2 (c1 hc), fun hc hg => g2 (c1 hc) (g1 hc hg)⟩
  intro x hx
  rcases n2 x hx with h | h
  · exact n1 x h
  · right; rw [← v1]; exact h

theorem mapGet_mem {V : Type} {steps : List (ExecutionStep V)} {a : String}
    {s : ExecutionStep V} (h : mapGet steps a = some s) :
    s ∈ steps ∧ s.id = a := by
  unfold mapGet at h
  have hmem := List.mem_reverse.mp (List.mem_of_find?_eq_some h)
  have hid := List.find?_some h
  exact ⟨hmem, by simpa using hid⟩

/-- Membership form of `Coupled`. -/
theorem coupled_mem {st : TopoState} (h : Coupled st) (x : String) :
    x ∈ st.visited ↔ x ∈ st.result := by
  rw [h, List.mem_reverse]

/-- Main bookkeeping lemma for successful calls: state only grows, the
`visiting` set is restored exactly, freshly completed ids were not
in-progress at entry, and the good-ordering invariant is preserved. -/
theorem topo_ok_extends {V : Type} (steps : List (ExecutionStep V)) :
    ∀ fuel : Nat,
      (∀ id st st2, visit steps fuel id st = .ok st2 →
        OkExtends steps st st2 ∧ id ∈ st2.visited) ∧
      (∀ ds st st2, visitDepsF (visit steps fuel) ds st = .ok st2 →
        OkExtends steps st st2 ∧ ∀ d ∈ ds, d ∈ st2.visited) := by
  intro fuel
  induction fuel with
  | zero =>
    constructor
    · intro id st st2 h
      rw [visit_zero] at h
      exact absurd h (by simp)
    · intro ds st st2 h
      cases ds with
      | nil =>
        rw [visitDeps_nil] at h
        cases h
        exact ⟨okExtends_refl steps st, by simp⟩
      | cons d ds =>
        rw [visitDeps_cons, visit_zero] at h
        exact absurd h (by simp)
  | succ n ih =>
    obtain ⟨ihv, ihd⟩ := ih
    have hvisit : ∀ id st st2, visit steps (n + 1) id st = .ok st2 →
        OkExtends steps st st2 ∧ id ∈ st2.visited := by
      intro id st st2 h
      rw [visit_succ] at h
      split_ifs at h with h1 h2
      · -- already visited: state unchanged (the cycle-error branch is
        -- discharged by split_ifs since an error is never ok)
        cases h
        exact ⟨okExtends_refl steps st, h2⟩
      · -- fresh id: push, visit dependencies, append
        split at h
        · -- mapGet returned none: error, contradiction
          exact absurd h (by simp)
        rename_i step hmg
        split at h
        · -- dependency visit failed: error, contradiction
          exact absurd h (by simp)
        rename_i stD hvd
        obtain ⟨⟨dv, dm, ⟨dt, dr⟩, dn, dc, dg⟩, ddeps⟩ := ihd _ _ _ hvd
        dsimp only at dv dm dr dn
        simp only [Except.ok.injEq] at h
        subst h
        have hidD : id ∉ stD.visited := by
          intro hmem
          rcases dn id hmem with hin | hout
          · exact h2 hin
          · exact hout (List.mem_cons_self id _)
        have hvisg : stD.visiting.erase id = st.visiting := by
          rw [dv, List.erase_cons_head]
        refine ⟨⟨?_, ?_, ?_, ?_, ?_, ?_⟩, ?_⟩
        · exact hvisg
        · intro x hx
          exact List.mem_cons_of_mem _ (dm x hx)
        · exact ⟨dt ++ [id], by simp [dr]⟩
        · intro x hx
          rcases List.mem_cons.mp hx with rfl | hx2
          · right; exact h1
          · rcases dn x hx2 with hin | hout
            · exact Or.inl hin
            · right; intro hc; exact hout (List.mem_cons_of_mem _ hc)
        · intro hc
          have hcD2 := dc hc
          unfold Coupled at hcD2 ⊢
          simp [hcD2]
        · intro hc hg
          have hcD2 := dc hc
          obtain ⟨gn, gord⟩ := dg hc hg
          have hidR : id ∉ stD.result := fun hmem =>
            hidD ((coupled_mem hcD2 id).mpr hmem)
          constructor
          · refine List.Nodup.append gn (by simp) ?_
            intro a ha hb
            simp only [List.mem_singleton] at hb
            subst hb
            exact hidR ha
          · intro a b hab hmem
            rcases List.mem_append.mp hmem with ha | ha
            · obtain ⟨hb, hlt⟩ := gord a b hab ha
              refine ⟨List.mem_append_left _ hb, ?_⟩
              rw [List.indexOf_append_of_mem hb, List.indexOf_append_of_mem ha]
              exact hlt
            · -- the appended id itself
              have haid : a = id := by simpa using ha
              subst haid
              obtain ⟨s, hs, hbs⟩ := hab
              rw [hmg] at hs
              cases hs
              have hbD : b ∈ stD.visited := ddeps b hbs
              have hbR : b ∈ stD.result := (coupled_mem hcD2 b).mp hbD
              refine ⟨List.mem_append_left _ hbR, ?_⟩
              rw [List.indexOf_append_of_mem hbR,
                List.indexOf_append_of_not_mem hidR]
              simp only [List.indexOf_cons_self, Nat.add_zero]
              exact List.indexOf_lt_length.mpr hbR
        · exact List.mem_cons_self id _
    refine ⟨hvisit, ?_⟩
    intro ds
    induction ds with
    | nil =>
      intro st st2 h
      rw [visitDeps_nil] at h
      cases h
      exact ⟨okExtends_refl steps st, by simp⟩
    | cons d ds ihds =>
      intro st st2 h
      rw [visitDeps_cons] at h
      rcases hv : visit steps (n + 1) d st with e | stM <;> rw [hv] at h
      · exact absurd h (by simp)
      obtain ⟨he1, hd1⟩ := hvisit d st stM hv
      obtain ⟨he2, hd2⟩ := ihds stM st2 h
      refine ⟨okExtends_trans steps he1 he2, ?_⟩
      intro x hx
      rcases List.mem_cons.mp hx with rfl | hx2
      · exact he2.2.1 x hd1
      · exact hd2 x hx2

/-! ### Fuel sufficiency -/

/-- Ids of the step set, as a finite set. -/
def allIds {V : Type} (steps : List (ExecutionStep V)) : Finset String :=
  (steps.map (fun s => s.id)).toFinset

/-- Number of step ids not yet completed or in progress; bounds the depth
of the remaining recursion. -/
def fuelMeasure {V : Type} (steps : List (ExecutionStep V)) (st : TopoState) : Nat :=
  (allIds steps \ (st.visited.toFinset ∪ st.visiting.toFinset)).card

theorem mapGet_isSome_of_mem {V : Type} {steps : List (ExecutionStep V)}
    {s : ExecutionStep V} (h : s ∈ steps) : (mapGet steps s.id).isSome = true := by
  unfold mapGet
  rw [List.find?_isSome]
  exact ⟨s, List.mem_reverse.mpr h, by simp⟩

theorem fuelMeasure_le {V : Type} (steps : List (ExecutionStep V)) (st : TopoState) :
    fuelMeasure steps st ≤ steps.length := by
  calc fuelMeasure steps st ≤ (allIds steps).card :=
        Finset.card_le_card (Finset.sdiff_subset)
    _ ≤ (steps.map (fun s => s.id)).length := List.toFinset_card_le _
    _ = steps.length := List.length_map _ _

/-- The fuel budget `steps.length + 1` supplied by the entry point never
runs out: `visit` and `visitDeps` never report the artificial fuel error
when called with fuel exceeding the pending-id count. -/
theorem topo_no_fuel {V : Type} (steps : List (ExecutionStep V)) :
    ∀ fuel : Nat,
      (∀ id st, fuelMeasure steps st < fuel →
        visit steps fuel id st ≠ .error .fuel) ∧
      (∀ ds st, fuelMeasure steps st < fuel →
        visitDepsF (visit steps fuel) ds st ≠ .error .fuel) := by
  intro fuel
  induction fuel with
  | zero =>
    exact ⟨fun id st h => absurd h (Nat.not_lt_zero _),
           fun ds st h => absurd h (Nat.not_lt_zero _)⟩
  | succ n ih =>
    obtain ⟨_, ihd⟩ := ih
    have hvisit : ∀ id st, fuelMeasure steps st < n + 1 →
        visit steps (n + 1) id st ≠ .error .fuel := by
      intro id st hm hcontra
      rw [visit_succ] at hcontra
      split_ifs at hcontra with h1 h2
      · exact absurd hcontra (by simp)
      · split at hcontra
        · exact absurd hcontra (by simp)
        rename_i step hmg
        split at hcontra
        · -- inner dependency visit propagated the fuel error
          rename_i e hvd
          simp only [Except.error.injEq] at hcontra
          subst hcontra
          have hid : id ∈ allIds steps \
              (st.visited.toFinset ∪ st.visiting.toFinset) := by
            obtain ⟨hmem, hidEq⟩ := mapGet_mem hmg
            simp only [Finset.mem_sdiff, Finset.mem_union, List.mem_toFinset,
              allIds, List.mem_map]
            exact ⟨⟨step, hmem, hidEq⟩, by tauto⟩
          have hset : allIds steps \
                ((st.visited).toFinset ∪ (id :: st.visiting).toFinset) =
              (allIds steps \
                (st.visited.toFinset ∪ st.visiting.toFinset)).erase id := by
            ext x
            simp only [Finset.mem_sdiff, Finset.mem_union, List.mem_toFinset,
              List.toFinset_cons, Finset.mem_insert, Finset.mem_erase]
            tauto
          have hm2 : fuelMeasure steps
              { st with visiting := id :: st.visiting } < n := by
            unfold fuelMeasure at hm ⊢
            dsimp only
            rw [hset, Finset.card_erase_of_mem hid]
            have hpos : 0 < (allIds steps \
                (st.visited.toFinset ∪ st.visiting.toFinset)).card :=
              Finset.card_pos.mpr ⟨id, hid⟩
            omega
          exact ihd _ _ hm2 hvd
        · exact absurd hcontra (by simp)
    refine ⟨hvisit, ?_⟩
    intro ds
    induction ds with
    | nil =>
      intro st hm hcontra
      rw [visitDeps_nil] at hcontra
      exact absurd hcontra (by simp)
    | cons d ds ihds =>
      intro st hm hcontra
      rw [visitDeps_cons] at hcontra
      split at hcontra
      · rename_i e hv
        simp only [Except.error.injEq] at hcontra
        subst hcontra
        exact hvisit d st hm hv
      · rename_i stM hv
        obtain ⟨⟨mv, mm, _, _, _, _⟩, _⟩ := (topo_ok_extends steps (n + 1)).1 _ _ _ hv
        have hm2 : fuelMeasure steps stM ≤ fuelMeasure steps st := by
          apply Finset.card_le_card
          intro x hx
          simp only [Finset.mem_sdiff, Finset.mem_union, List.mem_toFinset,
            not_or] at hx ⊢
          refine ⟨hx.1, ?_, ?_⟩
          · intro hc; exact hx.2.1 (mm x hc)
          · intro hc; apply hx.2.2; rw [mv]; exact hc
        exact ihds stM (lt_of_le_of_lt hm2 hm) hcontra

/-! ### Classification of errors: any non-fuel error under a closed step
set is a cycle error naming a step on a cycle -/

/-- Walking a dependency chain stored in the `visiting` stack from any of
its members back to its newest entry. -/
theorem chain_to_head {r : String → String → Prop} :
    ∀ (l : List String), List.Chain' (fun a b => r b a) l →
      ∀ x ∈ l, ∀ v0, l.head? = some v0 → Relation.ReflTransGen r x v0 := by
  intro l
  induction l with
  | nil => intro _ x hx; exact absurd hx (by simp)
  | cons a t ih =>
    intro hchain x hx v0 hv0
    simp only [List.head?_cons, Option.some.injEq] at hv0
    subst hv0
    rcases List.mem_cons.mp hx with rfl | hxt
    · exact Relation.ReflTransGen.refl
    · cases t with
      | nil => exact absurd hxt (by simp)
      | cons b t2 =>
        have hchain2 := (List.chain'_cons'.mp hchain).2
        have hedge : r b a :=
          (List.chain'_cons'.mp hchain).1 b (by simp)
        exact Relation.ReflTransGen.tail (ih hchain2 x hxt b (by simp)) hedge

/-- When a closed step set makes `visit` fail, the failure is either the
artificial fuel error or a circular-dependency error naming a step that
really lies on a dependency cycle. -/
theorem topo_err_class {V : Type} (steps : List (ExecutionStep V))
    (hclosed : ClosedSteps steps) :
    ∀ fuel : Nat,
      (∀ id st e, (mapGet steps id).isSome = true →
        List.Chain' (fun a b => depEdge steps b a) st.visiting →
        (∀ hd, st.visiting.head? = some hd → depEdge steps hd id) →
        visit steps fuel id st = .error e →
        e = .fuel ∨ ∃ y, e = .circular y ∧
          Relation.TransGen (depEdge steps) y y) ∧
      (∀ ds st e, (∀ d ∈ ds, (mapGet steps d).isSome = true) →
        List.Chain' (fun a b => depEdge steps b a) st.visiting →
        (∀ hd, st.visiting.head? = some hd → ∀ d ∈ ds, depEdge steps hd d) →
        visitDepsF (visit steps fuel) ds st = .error e →
        e = .fuel ∨ ∃ y, e = .circular y ∧
          Relation.TransGen (depEdge steps) y y) := by
  intro fuel
  induction fuel with
  | zero =>
    constructor
    · intro id st e _ _ _ h
      rw [visit_zero] at h
      simp only [Except.error.injEq] at h
      exact Or.inl h.symm
    · intro ds st e _ _ _ h
      cases ds with
      | nil =>
        rw [visitDeps_nil] at h
        exact absurd h (by simp)
      | cons d ds =>
        rw [visitDeps_cons, visit_zero] at h
        simp only [Except.error.injEq] at h
        exact Or.inl h.symm
  | succ n ih =>
    obtain ⟨_, ihd⟩ := ih
    have hvisit : ∀ id st e, (mapGet steps id).isSome = true →
        List.Chain' (fun a b => depEdge steps b a) st.visiting →
        (∀ hd, st.visiting.head? = some hd → depEdge steps hd id) →
        visit steps (n + 1) id st = .error e →
        e = .fuel ∨ ∃ y, e = .circular y ∧
          Relation.TransGen (depEdge steps) y y := by
      intro id st e hsome hchain hhead h
      rw [visit_succ] at h
      split_ifs at h with h1 h2
      · -- the circular error: id is already in the visiting stack
        simp only [Except.error.injEq] at h
        subst h
        right
        refine ⟨id, rfl, ?_⟩
        cases hv : st.visiting with
        | nil => rw [hv] at h1; exact absurd h1 (by simp)
        | cons v0 rest =>
          have hrtg : Relation.ReflTransGen (depEdge steps) id v0 := by
            apply chain_to_head st.visiting hchain id h1 v0
            rw [hv]; rfl
          have hedge : depEdge steps v0 id := by
            apply hhead; rw [hv]; rfl
          exact Relation.TransGen.tail' hrtg hedge
      · split at h
        · -- step not found: excluded since the map lookup succeeded
          rename_i hmg
          rw [hmg] at hsome
          exact absurd hsome (by simp)
        rename_i step hmg
        split at h
        · -- error propagated from the dependencies
          rename_i e2 hvd
          simp only [Except.error.injEq] at h
          subst h
          obtain ⟨hmem, _⟩ := mapGet_mem hmg
          refine ihd step.dependencies _ _ ?_ ?_ ?_ hvd
          · exact fun d hd => hclosed step hmem d hd
          · dsimp only
            rw [List.chain'_cons']
            constructor
            · intro b hb
              exact hhead b hb
            · exact hchain
          · dsimp only
            intro hd hhd d hdmem
            simp only [List.head?_cons, Option.some.injEq] at hhd
            subst hhd
            exact ⟨step, hmg, hdmem⟩
        · exact absurd h (by simp)
    refine ⟨hvisit, ?_⟩
    intro ds
    induction ds with
    | nil =>
      intro st e _ _ _ h
      rw [visitDeps_nil] at h
      exact absurd h (by simp)
    | cons d ds ihds =>
      intro st e hsome hchain hhead h
      rw [visitDeps_cons] at h
      split at h
      · rename_i e2 hv
        simp only [Except.error.injEq] at h
        subst h
        exact hvisit d st e2 (hsome d (by simp)) hchain
          (fun hd hhd => hhead hd hhd d (by simp)) hv
      · rename_i stM hv
        obtain ⟨⟨mv, _, _, _, _, _⟩, _⟩ := (topo_ok_extends steps (n + 1)).1 _ _ _ hv
        refine ihds stM e (fun x hx => hsome x (by simp [hx])) ?_ ?_ h
        · rw [mv]; exact hchain
        · rw [mv]
          intro hd hhd x hx
          exact hhead hd hhd x (by simp [hx])

/-! ### Properties of the top-level loop and of `calculateExecutionOrder` -/

/-- Invariant carried through the top-level loop. -/
def TopoInv {V : Type} (steps : List (ExecutionStep V)) (st : TopoState) : Prop :=
  Coupled st ∧ GoodTopo steps st ∧ st.visiting = []

theorem topoVisitAll_ok {V : Type} (steps : List (ExecutionStep V)) :
    ∀ (rest : List (ExecutionStep V)) (st st2 : TopoState),
      topoVisitAll steps rest st = .ok st2 → TopoInv steps st →
      TopoInv steps st2 ∧ (∀ x ∈ st.visited, x ∈ st2.visited) ∧
        ∀ s ∈ rest, s.id ∈ st2.visited := by
  intro rest
  induction rest with
  | nil =>
    intro st st2 h hinv
    cases h
    exact ⟨hinv, fun _ hx => hx, by simp⟩
  | cons s rest ih =>
    intro st st2 h hinv
    rw [topoVisitAll] at h
    split_ifs at h with h1
    · obtain ⟨hinv2, hmono, hrest⟩ := ih st st2 h hinv
      refine ⟨hinv2, hmono, ?_⟩
      intro t ht
      rcases List.mem_cons.mp ht with rfl | ht2
      · exact hmono _ h1
      · exact hrest t ht2
    · split at h
      · exact absurd h (by simp)
      rename_i stM hv
      obtain ⟨⟨mv, mm, _, _, mc, mg⟩, hid⟩ :=
        (topo_ok_extends steps (steps.length + 1)).1 _ _ _ hv
      obtain ⟨hc, hg, hvg⟩ := hinv
      have hinvM : TopoInv steps stM :=
        ⟨mc hc, mg hc hg, by rw [mv]; exact hvg⟩
      obtain ⟨hinv2, hmono, hrest⟩ := ih stM st2 h hinvM
      refine ⟨hinv2, fun x hx => hmono x (mm x hx), ?_⟩
      intro t ht
      rcases List.mem_cons.mp ht with rfl | ht2
      · exact hmono _ hid
      · exact hrest t ht2

theorem topoVisitAll_err {V : Type} (steps : List (ExecutionStep V))
    (hclosed : ClosedSteps steps) :
    ∀ (rest : List (ExecutionStep V)) (st : TopoState) (e : TopoErr),
      (∀ s ∈ rest, s ∈ steps) → st.visiting = [] →
      topoVisitAll steps rest st = .error e →
      ∃ y, e = .circular y ∧ Relation.TransGen (depEdge steps) y y := by
  intro rest
  induction rest with
  | nil =>
    intro st e _ _ h
    rw [topoVisitAll] at h
    exact absurd h (by simp)
  | cons s rest ih =>
    intro st e hsub hvg h
    rw [topoVisitAll] at h
    split_ifs at h with h1
    · exact ih st e (fun t ht => hsub t (by simp [ht])) hvg h
    · split at h
      · rename_i e2 hv
        simp only [Except.error.injEq] at h
        subst h
        have hclass := ((topo_err_class steps hclosed (steps.length + 1)).1
          s.id st e2 (mapGet_isSome_of_mem (hsub s (by simp)))
          (by rw [hvg]; exact List.chain'_nil)
          (by rw [hvg]; intro hd hhd; exact absurd hhd (by simp)) hv)
        rcases hclass with rfl | hcyc
        · -- fuel error is impossible for this budget
          exact absurd hv ((topo_no_fuel steps (steps.length + 1)).1 s.id st
            (Nat.lt_succ_of_le (fuelMeasure_le steps st)))
        · exact hcyc
      · rename_i stM hv
        obtain ⟨⟨mv, _, _, _, _, _⟩, _⟩ :=
          (topo_ok_extends steps (steps.length + 1)).1 _ _ _ hv
        exact ih stM e (fun t ht => hsub t (by simp [ht]))
          (by rw [mv]; exact hvg) h

/-- Successful order computations are duplicate-free, cover all step ids,
and place every id after all of its dependencies. -/
theorem calculateExecutionOrder_ok {V : Type} (steps : List (ExecutionStep V))
    (order : List String) (h : calculateExecutionOrder steps = .ok order) :
    order.Nodup ∧ (∀ s ∈ steps, s.id ∈ order) ∧
      ∀ a b, depEdge steps a b → a ∈ order →
        b ∈ order ∧ order.indexOf b < order.indexOf a := by
  unfold calculateExecutionOrder at h
  split at h
  · exact absurd h (by simp)
  rename_i st2 hall
  simp only [Except.ok.injEq] at h
  subst h
  have hinv0 : TopoInv steps ⟨[], [], []⟩ := by
    refine ⟨rfl, ⟨List.nodup_nil, ?_⟩, rfl⟩
    intro a b _ hmem
    exact absurd hmem (by simp)
  obtain ⟨⟨hc, ⟨hnd, hord⟩, _⟩, _, hall2⟩ := topoVisitAll_ok steps steps _ _ hall hinv0
  exact ⟨hnd, fun s hs => (coupled_mem hc s.id).mp (hall2 s hs), hord⟩

/-- Any error from `calculateExecutionOrder` on a closed step set is a
circular-dependency error naming a step on a cycle. -/
theorem calculateExecutionOrder_err {V : Type} (steps : List (ExecutionStep V))
    (hclosed : ClosedSteps steps) (e : TopoErr)
    (h : calculateExecutionOrder steps = .error e) :
    ∃ y, e = .circular y ∧ Relation.TransGen (depEdge steps) y y := by
  unfold calculateExecutionOrder at h
  split at h
  · rename_i e2 hall
    simp only [Except.error.injEq] at h
    subst h
    exact topoVisitAll_err steps hclosed steps _ e2 (fun _ ht => ht) rfl hall
  · exact absurd h (by simp)

/-- Walking a transitive dependency chain through a good order strictly
decreases the index. -/
theorem transGen_indexOf {V : Type} {steps : List (ExecutionStep V)}
    {order : List String}
    (hord : ∀ a b, depEdge steps a b → a ∈ order →
      b ∈ order ∧ order.indexOf b < order.indexOf a)
    {a b : String} (h : Relation.TransGen (depEdge steps) a b)
    (ha : a ∈ order) : b ∈ order ∧ order.indexOf b < order.indexOf a := by
  induction h with
  | single hedge => exact hord _ _ hedge ha
  | tail _ hedge ih =>
    obtain ⟨hc, hlt⟩ := ih
    obtain ⟨hb, hlt2⟩ := hord _ _ hedge hc
    exact ⟨hb, lt_trans hlt2 hlt⟩

/-! ### Concrete step sets used by the claim witnesses -/

/-- Acyclic two-step workflow: `s2` depends on `s1`. -/
def stepOne : ExecutionStep Nat :=
  ⟨"s1", "generate data", "generation", [], 0, none⟩

/-- Second step of the acyclic workflow. -/
def stepTwo : ExecutionStep Nat :=
  ⟨"s2", "analyze data", "analysis", ["s1"], 0, none⟩

/-- Acyclic concrete workflow step set. -/
def acyclicSteps : List (ExecutionStep Nat) := [stepOne, stepTwo]

/-- First member of a two-step dependency cycle. -/
def cycStepA : ExecutionStep Nat :=
  ⟨"A", "first of cycle", "generation", ["B"], 0, none⟩

/-- Second member of the cycle. -/
def cycStepB : ExecutionStep Nat :=
  ⟨"B", "second of cycle", "analysis", ["A"], 0, none⟩

/-- Cyclic concrete workflow step set. -/
def cyclicSteps : List (ExecutionStep Nat) := [cycStepA, cycStepB]

/-- C1: for every workflow whose step/dependency graph is acyclic,
`calculateExecutionOrder` returns an order containing each step id in
which every step appears after all of its dependencies (smaller index);
for every workflow whose graph contains a cycle, it raises the
circular-dependency error naming a step that belongs to a cycle. -/
theorem calculateExecutionOrder_topological_soundness {V : Type}
    (steps : List (ExecutionStep V)) (hclosed : ClosedSteps steps) :
    ((∀ x, ¬ Relation.TransGen (depEdge steps) x x) →
      ∃ order, calculateExecutionOrder steps = .ok order ∧
        (∀ s ∈ steps, s.id ∈ order) ∧
        (∀ a b, depEdge steps a b → a ∈ order →
          b ∈ order ∧ order.indexOf b < order.indexOf a)) ∧
    ((∃ x, Relation.TransGen (depEdge steps) x x) →
      ∃ y, calculateExecutionOrder steps = .error (.circular y) ∧
        Relation.TransGen (depEdge steps) y y) := by
  constructor
  · intro hacyc
    rcases hres : calculateExecutionOrder steps with e | order
    · obtain ⟨y, _, hcyc⟩ := calculateExecutionOrder_err steps hclosed e hres
      exact absurd hcyc (hacyc y)
    · obtain ⟨_, hcov, hord⟩ := calculateExecutionOrder_ok steps order hres
      exact ⟨order, rfl, hcov, hord⟩
  · rintro ⟨x, hx⟩
    rcases hres : calculateExecutionOrder steps with e | order
    · obtain ⟨y, rfl, hcyc⟩ := calculateExecutionOrder_err steps hclosed e hres
      exact ⟨y, rfl, hcyc⟩
    · exfalso
      obtain ⟨_, hcov, hord⟩ := calculateExecutionOrder_ok steps order hres
      have hxz : ∃ z, depEdge steps x z := by
        obtain ⟨c, h, _⟩ := Relation.TransGen.head'_iff.mp hx
        exact ⟨c, h⟩
      obtain ⟨z, s, hs, _⟩ := hxz
      obtain ⟨hmem, hid⟩ := mapGet_mem hs
      have hxmem : x ∈ order := hid ▸ hcov s hmem
      obtain ⟨_, hlt⟩ := transGen_indexOf hord hx hxmem
      exact lt_irrefl _ hlt

/-- Witness for C1: the closedness hypothesis is discharged on a concrete
acyclic and a concrete cyclic workflow, and the respective side of the
theorem is applied to each. -/
theorem calculateExecutionOrder_topological_soundness_witness :
    (ClosedSteps acyclicSteps ∧
      ∃ order, calculateExecutionOrder acyclicSteps = .ok order ∧
        (∀ s ∈ acyclicSteps, s.id ∈ order) ∧
        (∀ a b, depEdge acyclicSteps a b → a ∈ order →
          b ∈ order ∧ order.indexOf b < order.indexOf a)) ∧
    (ClosedSteps cyclicSteps ∧
      ∃ y, calculateExecutionOrder cyclicSteps = .error (.circular y) ∧
        Relation.TransGen (depEdge cyclicSteps) y y) := by
  constructor
  · refine ⟨by decide, ?_⟩
    apply (calculateExecutionOrder_topological_soundness acyclicSteps (by decide)).1
    have hedge : ∀ a b : String, depEdge acyclicSteps a b →
        a = "s2" ∧ b = "s1" := by
      rintro a b ⟨s, hs, hb⟩
      obtain ⟨hmem, hid⟩ := mapGet_mem hs
      simp only [acyclicSteps, List.mem_cons, List.not_mem_nil, or_false] at hmem
      rcases hmem with rfl | rfl
      · simp only [stepOne] at hb
        exact absurd hb (by simp)
      · simp only [stepTwo] at hb hid
        simp only [List.mem_singleton] at hb
        exact ⟨hid.symm, hb⟩
    have hchain : ∀ a b : String,
        Relation.TransGen (depEdge acyclicSteps) a b → a = "s2" ∧ b = "s1" := by
      intro a b h
      induction h with
      | single h => exact hedge _ _ h
      | tail _ h ih =>
        have hc2 := (hedge _ _ h).1
        rw [ih.2] at hc2
        exact absurd hc2 (by decide)
    intro x hx
    obtain ⟨h1, h2⟩ := hchain x x hx
    rw [h1] at h2
    exact absurd h2 (by decide)
  · refine ⟨by decide, ?_⟩
    apply (calculateExecutionOrder_topological_soundness cyclicSteps (by decide)).2
    have eAB : depEdge cyclicSteps "A" "B" :=
      ⟨cycStepA, rfl, by simp [cycStepA]⟩
    have eBA : depEdge cyclicSteps "B" "A" :=
      ⟨cycStepB, rfl, by simp [cycStepB]⟩
    exact ⟨"A", Relation.TransGen.head eAB (Relation.TransGen.single eBA)⟩

/-! ## Step execution (`executeStep`) -/

/-- Observable outcome of one `executeStep` call: the produced value or
the recorded error, the number of handler invocations, and the backoff
delays (in milliseconds) taken between attempts. -/
structure StepTrace (V : Type) where
  outcome : Except String V
  calls : Nat
  delays : List Nat

/-- The retry loop of `executeStep` over the explicit list of attempt
numbers (the source iterates `attempt = 1 .. step.retries + 1`).  After a
failed attempt `a` with `a ≤ retries` the loop waits `1000 * a`
milliseconds; the error of the last attempt is kept.  `outcome a` is the
handler behaviour on attempt `a`: a value, or the message of the thrown
error or timeout. -/
def attemptLoop {V : Type} (outcome : Nat → Except String V) (retries : Nat) :
    List Nat → String → StepTrace V
  | [], lastErr => ⟨.error lastErr, 0, []⟩
  | a :: rest, _ =>
    match outcome a with
    | .ok v => ⟨.ok v, 1, []⟩
    | .error e =>
      let t := attemptLoop outcome retries rest e
      ⟨t.outcome, t.calls + 1,
        if a ≤ retries then 1000 * a :: t.delays else t.delays⟩

/-- Embedding of `executeStep`: look up the registered handler for the
step kind, then run the retry loop.  `handlers` is the key set of the
handler registry.  The initial `"Unknown error"` mirrors
`lastError?.message || 'Unknown error'` and is unreachable since at least
one attempt always runs. -/
def executeStep {V : Type} (handlers : List String)
    (outcome : Nat → Except String V) (step : ExecutionStep V) : StepTrace V :=
  if step.type ∈ handlers then
    attemptLoop outcome step.retries (List.range' 1 (step.retries + 1))
      "Unknown error"
  else
    ⟨.error ("No handler registered for step type: " ++ step.type), 0, []⟩

/-! ## Workflow execution (`executeComplexWorkflow`) -/

/-- State threaded through the step loop: the execution context, the local
`skippedSteps` array, a trace of handler-invocation counts per executed
step, and the break flag set after a rollback. -/
structure RunState (V : Type) where
  ctx : ExecutionContext V
  skipped : List String
  trace : List (String × Nat)
  stopped : Bool

/-- Fresh execution context. -/
def initContext (V : Type) : ExecutionContext V :=
  ⟨"", [], [], [], 0, 0, 0⟩

/-- Fresh loop state. -/
def initRunState (V : Type) : RunState V :=
  ⟨initContext V, [], [], false⟩

/-- First-match lookup `scenario.steps.find(s => s.id === stepId)`. -/
def findStep {V : Type} (steps : List (ExecutionStep V)) (stepId : String) :
    Option (ExecutionStep V) :=
  steps.find? (fun s => s.id == stepId)

/-- The `if (step.condition && !step.condition(context))` skip test. -/
def shouldSkip {V : Type} (step : ExecutionStep V)
    (ctx : ExecutionContext V) : Bool :=
  match step.condition with
  | some c => ! c ctx
  | none => false

/-- Embedding of `rollbackStep` followed by the bookkeeping deletions.
`hook` models the simulated rollback operation for one step; when it
throws (`false`) `rollbackWorkflow` logs and continues, and the deletions
(which follow the operation in the source) are skipped. -/
def rollbackOne {V : Type} (hook : String → Bool) (c : ExecutionContext V)
    (stepId : String) : ExecutionContext V :=
  if hook stepId then
    { c with stepResults := mapDelete c.stepResults stepId,
             completedSteps := c.completedSteps.erase stepId }
  else c

/-- Embedding of `rollbackWorkflow`: roll back the completed steps in
reverse completion order, swallowing per-step failures.  Also returns the
visit order for reasoning about it. -/
def rollbackWorkflow {V : Type} (hook : String → Bool)
    (ctx : ExecutionContext V) : ExecutionContext V × List String :=
  let order := ctx.completedSteps.reverse
  (order.foldl (rollbackOne hook) ctx, order)

/-- The `for (const stepId of executionOrder)` loop of
`executeComplexWorkflow`.  `outcome` is the handler oracle per step id and
attempt number.  The `stopped` flag models the `break` issued after a
rollback: once set, the rest of the order is ignored. -/
def runSteps {V : Type} (handlers : List String)
    (outcome : String → Nat → Except String V) (hook : String → Bool)
    (scen : ScenarioDefinition V) :
    List String → RunState V → RunState V
  | [], s => s
  | stepId :: rest, s =>
    match s.stopped with
    | true => s
    | false =>
      match findStep scen.steps stepId with
      | none => runSteps handlers outcome hook scen rest s
      | some step =>
        match shouldSkip step s.ctx with
        | true =>
          runSteps handlers outcome hook scen rest
            { s with skipped := s.skipped ++ [stepId],
                     ctx := { s.ctx with
                       skippedCount := s.ctx.skippedCount + 1 } }
        | false =>
          match step.dependencies.all
              (fun d => s.ctx.completedSteps.contains d) with
          | true =>
            let t := executeStep handlers (outcome stepId) step
            let s1 : RunState V :=
              { s with trace := s.trace ++ [(stepId, t.calls)],
                       ctx := { s.ctx with currentStep := stepId } }
            match t.outcome with
            | .ok v =>
              runSteps handlers outcome hook scen rest
                { s1 with ctx := { s1.ctx with
                    completedSteps := addSet s1.ctx.completedSteps stepId,
                    stepResults := mapSet s1.ctx.stepResults stepId v,
                    completedCount := s1.ctx.completedCount + 1 } }
            | .error _ =>
              let s2 : RunState V :=
                { s1 with ctx := { s1.ctx with
                    failedSteps := addSet s1.ctx.failedSteps stepId,
                    failedCount := s1.ctx.failedCount + 1 } }
              match scen.rollbackOnFailure with
              | true =>
                { s2 with ctx := (rollbackWorkflow hook s2.ctx).1,
                          stopped := true }
              | false =>
                runSteps handlers outcome hook scen rest s2
          | false =>
            runSteps handlers outcome hook scen rest
              { s with ctx := { s.ctx with
                  failedSteps := addSet s.ctx.failedSteps stepId,
                  failedCount := s.ctx.failedCount + 1 } }

/-- Embedding of `validateWorkflowResults`: the collected error messages
and the success flag `errors.length === 0 && failedSteps.size === 0`. -/
def validateWorkflowResults {V : Type} (scen : ScenarioDefinition V)
    (ctx : ExecutionContext V) : Bool × List String :=
  let errors := scen.requiredResults.filterMap
    (fun r =>
      if ctx.stepResults.any (fun p => p.1 == r) then none
      else some ("Missing required result: " ++ r))
  let errors2 :=
    match scen.successCriteria ctx.stepResults with
    | .ok true => errors
    | .ok false => errors ++ ["Custom success criteria not met"]
    | .error msg => errors ++ ["Validation error: " ++ msg]
  (errors2.isEmpty && ctx.failedSteps.isEmpty, errors2)

/-- Observable part of `WorkflowResult`; wall-clock derived summary
fields (durations, bottlenecks, recommendations) are not modelled. -/
structure WorkflowResult (V : Type) where
  success : Bool
  completedSteps : List String
  failedSteps : List String
  skippedSteps : List String
  results : List (String × V)
  errors : List String

/-- Body of the `try` block of `executeComplexWorkflow`: compute the
execution order (which may throw), run the step loop, validate, and
synthesize the result. -/
def executeComplexWorkflowBody {V : Type} (handlers : List String)
    (outcome : String → Nat → Except String V) (hook : String → Bool)
    (scen : ScenarioDefinition V) : Except String (WorkflowResult V) :=
  match calculateExecutionOrder scen.steps with
  | .error e => .error (topoErrMsg e)
  | .ok order =>
    let final := runSteps handlers outcome hook scen order (initRunState V)
    let v := validateWorkflowResults scen final.ctx
    .ok { success := v.1,
          completedSteps := final.ctx.completedSteps,
          failedSteps := final.ctx.failedSteps,
          skippedSteps := final.skipped,
          results := final.ctx.stepResults,
          errors := v.2 }

/-- Embedding of `executeComplexWorkflow` as observed by the caller: the
surrounding `try/catch` converts any error thrown inside the body into a
returned failure result carrying that error message, so the promise
resolves (`.ok`) for every input.  At the only possible throw point the
context is still fresh, which the catch branch reflects. -/
def executeComplexWorkflow {V : Type} (handlers : List String)
    (outcome : String → Nat → Except String V) (hook : String → Bool)
    (scen : ScenarioDefinition V) : Except String (WorkflowResult V) :=
  match executeComplexWorkflowBody handlers outcome hook scen with
  | .ok r => .ok r
  | .error msg =>
    .ok { success := false,
          completedSteps := (initContext V).completedSteps,
          failedSteps := (initContext V).failedSteps,
          skippedSteps := [],
          results := (initContext V).stepResults,
          errors := [msg] }

/-- The step kinds with default registered handlers. -/
def defaultHandlers : List String :=
  ["generation", "analysis", "validation", "integration", "cleanup"]

/-! ### Bookkeeping lemmas for the step loop -/

/-- State recorded when a skipped step is bypassed. -/
def markSkipped {V : Type} (s : RunState V) (stepId : String) : RunState V :=
  { s with skipped := s.skipped ++ [stepId],
           ctx := { s.ctx with skippedCount := s.ctx.skippedCount + 1 } }

/-- State recorded when a step fails its dependency check. -/
def markDepFailed {V : Type} (s : RunState V) (stepId : String) : RunState V :=
  { s with ctx := { s.ctx with
      failedSteps := addSet s.ctx.failedSteps stepId,
      failedCount := s.ctx.failedCount + 1 } }

/-- State after the handler-invocation bookkeeping of one executed step. -/
def markExecuted {V : Type} (s : RunState V) (stepId : String) (calls : Nat) :
    RunState V :=
  { s with trace := s.trace ++ [(stepId, calls)],
           ctx := { s.ctx with currentStep := stepId } }

/-- State recorded for a successfully executed step. -/
def markCompleted {V : Type} (s : RunState V) (stepId : String) (v : V) :
    RunState V :=
  { s with ctx := { s.ctx with
      completedSteps := addSet s.ctx.completedSteps stepId,
      stepResults := mapSet s.ctx.stepResults stepId v,
      completedCount := s.ctx.completedCount + 1 } }

/-- State recorded for a step whose execution failed. -/
def markFailed {V : Type} (s : RunState V) (stepId : String) : RunState V :=
  { s with ctx := { s.ctx with
      failedSteps := addSet s.ctx.failedSteps stepId,
      failedCount := s.ctx.failedCount + 1 } }

theorem mem_addSet (l : List String) (x y : String) :
    y ∈ addSet l x ↔ y ∈ l ∨ y = x := by
  unfold addSet
  split_ifs with h
  · constructor
    · exact fun hy => Or.inl hy
    · rintro (hy | rfl)
      · exact hy
      · exact h
  · simp

theorem addSet_nodup {l : List String} (h : l.Nodup) (x : String) :
    (addSet l x).Nodup := by
  unfold addSet
  split_ifs with hx
  · exact h
  · simpa [List.nodup_append] using ⟨h, hx⟩

/-! ### Branch equations for the step loop -/

theorem runSteps_stopped {V : Type} (handlers : List String)
    (outcome : String → Nat → Except String V) (hook : String → Bool)
    (scen : ScenarioDefinition V) (l : List String) (s : RunState V)
    (h : s.stopped = true) :
    runSteps handlers outcome hook scen l s = s := by
  cases l with
  | nil => rfl
  | cons a rest => rw [runSteps, h]

theorem runSteps_notFound {V : Type} {handlers : List String}
    {outcome : String → Nat → Except String V} {hook : String → Bool}
    {scen : ScenarioDefinition V} {a : String} (rest : List String)
    {s : RunState V} (hstop : s.stopped = false)
    (hfind : findStep scen.steps a = none) :
    runSteps handlers outcome hook scen (a :: rest) s =
      runSteps handlers outcome hook scen rest s := by
  rw [runSteps]
  simp only [hstop, hfind]

theorem runSteps_skip {V : Type} {handlers : List String}
    {outcome : String → Nat → Except String V} {hook : String → Bool}
    {scen : ScenarioDefinition V} {a : String} (rest : List String)
    {s : RunState V} {step : ExecutionStep V} (hstop : s.stopped = false)
    (hfind : findStep scen.steps a = some step)
    (hskip : shouldSkip step s.ctx = true) :
    runSteps handlers outcome hook scen (a :: rest) s =
      runSteps handlers outcome hook scen rest (markSkipped s a) := by
  rw [runSteps]
  simp only [hstop, hfind, hskip, markSkipped]

theorem runSteps_depFail {V : Type} {handlers : List String}
    {outcome : String → Nat → Except String V} {hook : String → Bool}
    {scen : ScenarioDefinition V} {a : String} (rest : List String)
    {s : RunState V} {step : ExecutionStep V} (hstop : s.stopped = false)
    (hfind : findStep scen.steps a = some step)
    (hskip : shouldSkip step s.ctx = false)
    (hdeps : step.dependencies.all
      (fun d => s.ctx.completedSteps.contains d) = false) :
    runSteps handlers outcome hook scen (a :: rest) s =
      runSteps handlers outcome hook scen rest (markDepFailed s a) := by
  rw [runSteps]
  simp only [hstop, hfind, hskip, hdeps, markDepFailed]

theorem runSteps_ok {V : Type} {handlers : List String}
    {outcome : String → Nat → Except String V} {hook : String → Bool}
    {scen : ScenarioDefinition V} {a : String} (rest : List String)
    {s : RunState V} {step : ExecutionStep V} {v : V}
    (hstop : s.stopped = false)
    (hfind : findStep scen.steps a = some step)
    (hskip : shouldSkip step s.ctx = false)
    (hdeps : step.dependencies.all
      (fun d => s.ctx.completedSteps.contains d) = true)
    (hout : (executeStep handlers (outcome a) step).outcome = .ok v) :
    runSteps handlers outcome hook scen (a :: rest) s =
      runSteps handlers outcome hook scen rest
        (markCompleted
          (markExecuted s a (executeStep handlers (outcome a) step).calls) a v) := by
  rw [runSteps]
  simp only [hstop, hfind, hskip, hdeps, hout, markExecuted, markCompleted]

theorem runSteps_err_rollback {V : Type} {handlers : List String}
    {outcome : String → Nat → Except String V} {hook : String → Bool}
    {scen : ScenarioDefinition V} {a : String} (rest : List String)
    {s : RunState V} {step : ExecutionStep V} {e : String}
    (hstop : s.stopped = false)
    (hfind : findStep scen.steps a = some step)
    (hskip : shouldSkip step s.ctx = false)
    (hdeps : step.dependencies.all
      (fun d => s.ctx.completedSteps.contains d) = true)
    (hout : (executeStep handlers (outcome a) step).outcome = .error e)
    (hrb : scen.rollbackOnFailure = true) :
    runSteps handlers outcome hook scen (a :: rest) s =
      (let s2 := markFailed
        (markExecuted s a (executeStep handlers (outcome a) step).calls) a
       { s2 with ctx := (rollbackWorkflow hook s2.ctx).1, stopped := true }) := by
  rw [runSteps]
  simp only [hstop, hfind, hskip, hdeps, hout, hrb, markExecuted, markFailed]

theorem runSteps_err_continue {V : Type} {handlers : List String}
    {outcome : String → Nat → Except String V} {hook : String → Bool}
    {scen : ScenarioDefinition V} {a : String} (rest : List String)
    {s : RunState V} {step : ExecutionStep V} {e : String}
    (hstop : s.stopped = false)
    (hfind : findStep scen.steps a = some step)
    (hskip : shouldSkip step s.ctx = false)
    (hdeps : step.dependencies.all
      (fun d => s.ctx.completedSteps.contains d) = true)
    (hout : (executeStep handlers (outcome a) step).outcome = .error e)
    (hrb : scen.rollbackOnFailure = false) :
    runSteps handlers outcome hook scen (a :: rest) s =
      runSteps handlers outcome hook scen rest
        (markFailed
          (markExecuted s a (executeStep handlers (outcome a) step).calls) a) := by
  rw [runSteps]
  simp only [hstop, hfind, hskip, hdeps, hout, hrb, markExecuted, markFailed]

/-! ### Bookkeeping lemmas for the step loop -/

theorem rollbackOne_failedSteps {V : Type} (hook : String → Bool)
    (c : ExecutionContext V) (stepId : String) :
    (rollbackOne hook c stepId).failedSteps = c.failedSteps := by
  unfold rollbackOne
  split_ifs <;> rfl

theorem foldl_rollbackOne_failedSteps {V : Type} (hook : String → Bool) :
    ∀ (l : List String) (c : ExecutionContext V),
      (l.foldl (rollbackOne hook) c).failedSteps = c.failedSteps := by
  intro l
  induction l with
  | nil => intro c; rfl
  | cons x xs ih =>
    intro c
    rw [List.foldl_cons, ih, rollbackOne_failedSteps]

theorem rollbackWorkflow_failedSteps {V : Type} (hook : String → Bool)
    (ctx : ExecutionContext V) :
    ((rollbackWorkflow hook ctx).1).failedSteps = ctx.failedSteps :=
  foldl_rollbackOne_failedSteps hook _ ctx

theorem runSteps_append {V : Type} (handlers : List String)
    (outcome : String → Nat → Except String V) (hook : String → Bool)
    (scen : ScenarioDefinition V) (l1 l2 : List String) (s : RunState V) :
    runSteps handlers outcome hook scen (l1 ++ l2) s =
      runSteps handlers outcome hook scen l2
        (runSteps handlers outcome hook scen l1 s) := by
  induction l1 generalizing s with
  | nil => rfl
  | cons a rest ih =>
    rw [List.cons_append]
    cases hstop : s.stopped with
    | true =>
      rw [runSteps_stopped _ _ _ _ _ _ hstop,
        runSteps_stopped _ _ _ _ _ _ hstop,
        runSteps_stopped _ _ _ _ _ _ hstop]
    | false =>
      cases hfind : findStep scen.steps a with
      | none => rw [runSteps_notFound _ hstop hfind,
          runSteps_notFound _ hstop hfind, ih]
      | some step =>
        cases hskip : shouldSkip step s.ctx with
        | true => rw [runSteps_skip _ hstop hfind hskip,
            runSteps_skip _ hstop hfind hskip, ih]
        | false =>
          cases hdeps : step.dependencies.all
              (fun d => s.ctx.completedSteps.contains d) with
          | false => rw [runSteps_depFail _ hstop hfind hskip hdeps,
              runSteps_depFail _ hstop hfind hskip hdeps, ih]
          | true =>
            cases hout : (executeStep handlers (outcome a) step).outcome with
            | ok v => rw [runSteps_ok _ hstop hfind hskip hdeps hout,
                runSteps_ok _ hstop hfind hskip hdeps hout, ih]
            | error e =>
              cases hrb : scen.rollbackOnFailure with
              | false => rw [runSteps_err_continue _ hstop hfind hskip hdeps hout hrb,
                  runSteps_err_continue _ hstop hfind hskip hdeps hout hrb, ih]
              | true =>
                rw [runSteps_err_rollback _ hstop hfind hskip hdeps hout hrb,
                  runSteps_err_rollback _ hstop hfind hskip hdeps hout hrb,
                  runSteps_stopped _ _ _ _ _ _ rfl]

/-- Each loop branch only ever adds to the failed set. -/
theorem runSteps_failed_mono {V : Type} (handlers : List String)
    (outcome : String → Nat → Except String V) (hook : String → Bool)
    (scen : ScenarioDefinition V) (l : List String) (s : RunState V)
    (b : String) (hb : b ∈ s.ctx.failedSteps) :
    b ∈ (runSteps handlers outcome hook scen l s).ctx.failedSteps := by
  induction l generalizing s with
  | nil => exact hb
  | cons a rest ih =>
    cases hstop : s.stopped with
    | true => rw [runSteps_stopped _ _ _ _ _ _ hstop]; exact hb
    | false =>
      cases hfind : findStep scen.steps a with
      | none => rw [runSteps_notFound _ hstop hfind]; exact ih s hb
      | some step =>
        cases hskip : shouldSkip step s.ctx with
        | true => rw [runSteps_skip _ hstop hfind hskip]; exact ih _ hb
        | false =>
          cases hdeps : step.dependencies.all
              (fun d => s.ctx.completedSteps.contains d) with
          | false =>
            rw [runSteps_depFail _ hstop hfind hskip hdeps]
            exact ih _ ((mem_addSet _ _ _).mpr (Or.inl hb))
          | true =>
            cases hout : (executeStep handlers (outcome a) step).outcome with
            | ok v =>
              rw [runSteps_ok _ hstop hfind hskip hdeps hout]
              exact ih _ hb
            | error e =>
              cases hrb : scen.rollbackOnFailure with
              | false =>
                rw [runSteps_err_continue _ hstop hfind hskip hdeps hout hrb]
                exact ih _ ((mem_addSet _ _ _).mpr (Or.inl hb))
              | true =>
                rw [runSteps_err_rollback _ hstop hfind hskip hdeps hout hrb]
                dsimp only
                rw [rollbackWorkflow_failedSteps]
                simp only [markFailed, markExecuted]
                exact (mem_addSet _ _ _).mpr (Or.inl hb)

/-- Every trace entry comes from the incoming trace or from a processed
step id. -/
theorem runSteps_trace_from {V : Type} (handlers : List String)
    (outcome : String → Nat → Except String V) (hook : String → Bool)
    (scen : ScenarioDefinition V) (l : List String) (s : RunState V) :
    ∀ p ∈ (runSteps handlers outcome hook scen l s).trace,
      p ∈ s.trace ∨ p.1 ∈ l := by
  induction l generalizing s with
  | nil => exact fun p hp => Or.inl hp
  | cons a rest ih =>
    intro p hp
    have hsub : ∀ s2 : RunState V, (∀ q ∈ s2.trace, q ∈ s.trace ∨ q.1 = a) →
        p ∈ (runSteps handlers outcome hook scen rest s2).trace →
        p ∈ s.trace ∨ p.1 ∈ a :: rest := by
      intro s2 hs2 hp2
      rcases ih s2 p hp2 with h | h
      · rcases hs2 p h with h2 | h2
        · exact Or.inl h2
        · exact Or.inr (by simp [h2])
      · exact Or.inr (by simp [h])
    have htr : ∀ step2 : ExecutionStep V, ∀ q : String × Nat,
        q ∈ s.trace ++ [(a, (executeStep handlers (outcome a) step2).calls)] →
        q ∈ s.trace ∨ q.1 = a := by
      intro step2 q hq
      rcases List.mem_append.mp hq with h | h
      · exact Or.inl h
      · simp only [List.mem_singleton] at h
        subst h
        exact Or.inr rfl
    cases hstop : s.stopped with
    | true =>
      rw [runSteps_stopped _ _ _ _ _ _ hstop] at hp
      exact Or.inl hp
    | false =>
      cases hfind : findStep scen.steps a with
      | none =>
        rw [runSteps_notFound _ hstop hfind] at hp
        exact hsub s (fun q hq => Or.inl hq) hp
      | some step =>
        cases hskip : shouldSkip step s.ctx with
        | true =>
          rw [runSteps_skip _ hstop hfind hskip] at hp
          exact hsub (markSkipped s a) (fun q hq => Or.inl hq) hp
        | false =>
          cases hdeps : step.dependencies.all
              (fun d => s.ctx.completedSteps.contains d) with
          | false =>
            rw [runSteps_depFail _ hstop hfind hskip hdeps] at hp
            exact hsub (markDepFailed s a) (fun q hq => Or.inl hq) hp
          | true =>
            cases hout : (executeStep handlers (outcome a) step).outcome with
            | ok v =>
              rw [runSteps_ok _ hstop hfind hskip hdeps hout] at hp
              exact hsub _ (htr step) hp
            | error e =>
              cases hrb : scen.rollbackOnFailure with
              | false =>
                rw [runSteps_err_continue _ hstop hfind hskip hdeps hout hrb] at hp
                exact hsub _ (htr step) hp
              | true =>
                rw [runSteps_err_rollback _ hstop hfind hskip hdeps hout hrb] at hp
                rcases htr step p hp with h | h
                · exact Or.inl h
                · exact Or.inr (by simp [h])

/-! ## Claim C2: propagation of structural errors -/

/-- Workflow definition over the cyclic step set. -/
def cyclicScenario : ScenarioDefinition Nat :=
  ⟨"cyclic", cyclicSteps, [], fun _ => .ok true, false⟩

/-- C2 counterexample: called on a workflow with a structural error (a
cyclic dependency graph), `executeComplexWorkflow` does not raise to its
caller; the `try/catch` returns an ordinary `WorkflowResult` carrying the
cycle message in `errors`. -/
theorem executeComplexWorkflow_cycle_returns :
    executeComplexWorkflow defaultHandlers (fun _ _ => .ok (0 : Nat))
        (fun _ => true) cyclicScenario =
      .ok { success := false, completedSteps := [], failedSteps := [],
            skippedSteps := [], results := [],
            errors := ["Circular dependency detected involving step: A"] } := rfl

/-- C2 (amended): `executeComplexWorkflow` never throws for any input.
Ordinary step failures are recorded in the result, and a pre-execution
structural error (cyclic graph or unresolvable step reference) is caught
internally and surfaced as a returned result with `success = false` whose
`errors` list holds exactly the structural error message. -/
theorem executeComplexWorkflow_never_throws {V : Type} (handlers : List String)
    (outcome : String → Nat → Except String V) (hook : String → Bool)
    (scen : ScenarioDefinition V) :
    (∃ r, executeComplexWorkflow handlers outcome hook scen = .ok r) ∧
    (∀ e, calculateExecutionOrder scen.steps = .error e →
      executeComplexWorkflow handlers outcome hook scen =
        .ok { success := false, completedSteps := [], failedSteps := [],
              skippedSteps := [], results := [],
              errors := [topoErrMsg e] }) := by
  constructor
  · cases hb : executeComplexWorkflowBody handlers outcome hook scen with
    | ok r => exact ⟨r, by simp only [executeComplexWorkflow, hb]⟩
    | error msg =>
      exact ⟨{ success := false, completedSteps := [], failedSteps := [],
               skippedSteps := [], results := [], errors := [msg] },
             by simp only [executeComplexWorkflow, hb]; rfl⟩
  · intro e he
    have hbody : executeComplexWorkflowBody handlers outcome hook scen =
        .error (topoErrMsg e) := by
      simp only [executeComplexWorkflowBody, he]
    simp only [executeComplexWorkflow, hbody]
    rfl

/-- Witness for C2 (amended), instantiated on the concrete cyclic
workflow; the structural-error hypothesis is discharged by computation. -/
theorem executeComplexWorkflow_never_throws_witness :
    (∃ r, executeComplexWorkflow defaultHandlers (fun _ _ => .ok (0 : Nat))
      (fun _ => true) cyclicScenario = .ok r) ∧
    executeComplexWorkflow defaultHandlers (fun _ _ => .ok (0 : Nat))
        (fun _ => true) cyclicScenario =
      .ok { success := false, completedSteps := [], failedSteps := [],
            skippedSteps := [], results := [],
            errors := [topoErrMsg (.circular "A")] } :=
  ⟨(executeComplexWorkflow_never_throws defaultHandlers (fun _ _ => .ok 0)
      (fun _ => true) cyclicScenario).1,
   (executeComplexWorkflow_never_throws defaultHandlers (fun _ _ => .ok 0)
      (fun _ => true) cyclicScenario).2 (.circular "A") rfl⟩

/-! ## Claim C3: result synthesis -/

theorem mem_results_iff {V : Type} (l : List (String × V)) (req : String) :
    (l.any (fun p => p.1 == req)) = true ↔ ∃ v, (req, v) ∈ l := by
  rw [List.any_eq_true]
  constructor
  · rintro ⟨p, hp, hpq⟩
    rw [beq_iff_eq] at hpq
    refine ⟨p.2, ?_⟩
    rw [← hpq]
    simpa using hp
  · rintro ⟨v, hv⟩
    exact ⟨(req, v), hv, by simp⟩

theorem validate_success_iff {V : Type} (scen : ScenarioDefinition V)
    (ctx : ExecutionContext V) :
    (validateWorkflowResults scen ctx).1 = true ↔
      ctx.failedSteps = [] ∧
      (∀ req ∈ scen.requiredResults, ∃ v, (req, v) ∈ ctx.stepResults) ∧
      scen.successCriteria ctx.stepResults = .ok true := by
  have herrs : (scen.requiredResults.filterMap
      (fun r => if ctx.stepResults.any (fun p => p.1 == r) then none
                else some ("Missing required result: " ++ r))) = [] ↔
      ∀ req ∈ scen.requiredResults, ∃ v, (req, v) ∈ ctx.stepResults := by
    rw [List.filterMap_eq_nil_iff]
    constructor
    · intro h req hreq
      have hr := h req hreq
      by_cases hany : ctx.stepResults.any (fun p => p.1 == req) = true
      · exact (mem_results_iff _ _).mp hany
      · rw [if_neg hany] at hr
        exact absurd hr (by simp)
    · intro h req hreq
      rw [if_pos ((mem_results_iff _ _).mpr (h req hreq))]
  unfold validateWorkflowResults
  cases hc : scen.successCriteria ctx.stepResults with
  | error msg =>
    simp only [hc]
    simp [List.isEmpty_iff]
  | ok b =>
    cases b with
    | false =>
      simp only [hc]
      simp [List.isEmpty_iff]
    | true =>
      simp only [hc]
      simp only [Bool.and_eq_true, List.isEmpty_iff]
      rw [herrs]
      constructor
      · rintro ⟨hreq, hfailed⟩
        exact ⟨hfailed, hreq, trivial⟩
      · rintro ⟨hfailed, hreq, _⟩
        exact ⟨hreq, hfailed⟩

/-- C3: when the order computation succeeds, the returned result's
`success` flag is true exactly when the final context has no failed
steps, every required result id is bound in `stepResults`, and the
caller-supplied success criteria evaluates to `true` on the final results
map (throwing counts as not met). -/
theorem workflowResult_success_iff {V : Type} (handlers : List String)
    (outcome : String → Nat → Except String V) (hook : String → Bool)
    (scen : ScenarioDefinition V) (order : List String)
    (horder : calculateExecutionOrder scen.steps = .ok order) :
    ∃ r, executeComplexWorkflow handlers outcome hook scen = .ok r ∧
      (r.success = true ↔
        (runSteps handlers outcome hook scen order (initRunState V)).ctx.failedSteps
            = [] ∧
        (∀ req ∈ scen.requiredResults, ∃ v, (req, v) ∈
          (runSteps handlers outcome hook scen order (initRunState V)).ctx.stepResults)
            ∧
        scen.successCriteria
          (runSteps handlers outcome hook scen order
            (initRunState V)).ctx.stepResults = .ok true) := by
  have hbody : executeComplexWorkflowBody handlers outcome hook scen =
      .ok { success := (validateWorkflowResults scen
              (runSteps handlers outcome hook scen order (initRunState V)).ctx).1,
            completedSteps :=
              (runSteps handlers outcome hook scen order (initRunState V)).ctx.completedSteps,
            failedSteps :=
              (runSteps handlers outcome hook scen order (initRunState V)).ctx.failedSteps,
            skippedSteps :=
              (runSteps handlers outcome hook scen order (initRunState V)).skipped,
            results :=
              (runSteps handlers outcome hook scen order (initRunState V)).ctx.stepResults,
            errors := (validateWorkflowResults scen
              (runSteps handlers outcome hook scen order (initRunState V)).ctx).2 } := by
    simp only [executeComplexWorkflowBody, horder]
  refine ⟨{ success := (validateWorkflowResults scen
              (runSteps handlers outcome hook scen order (initRunState V)).ctx).1,
            completedSteps :=
              (runSteps handlers outcome hook scen order (initRunState V)).ctx.completedSteps,
            failedSteps :=
              (runSteps handlers outcome hook scen order (initRunState V)).ctx.failedSteps,
            skippedSteps :=
              (runSteps handlers outcome hook scen order (initRunState V)).skipped,
            results :=
              (runSteps handlers outcome hook scen order (initRunState V)).ctx.stepResults,
            errors := (validateWorkflowResults scen
              (runSteps handlers outcome hook scen order (initRunState V)).ctx).2 },
    ?_, ?_⟩
  · simp only [executeComplexWorkflow, hbody]
  · exact validate_success_iff scen _

/-- Linear two-step workflow used as the C3 witness. -/
def linearScenario : ScenarioDefinition Nat :=
  ⟨"linear", acyclicSteps, ["s1", "s2"], fun _ => .ok true, false⟩

/-- Witness for C3 on the concrete linear workflow; the order-computation
hypothesis is discharged by evaluation. -/
theorem workflowResult_success_iff_witness :
    ∃ r, executeComplexWorkflow defaultHandlers
        (fun _ _ => .ok (7 : Nat)) (fun _ => true) linearScenario = .ok r ∧
      (r.success = true ↔
        (runSteps defaultHandlers (fun _ _ => .ok (7 : Nat)) (fun _ => true)
          linearScenario ["s1", "s2"] (initRunState Nat)).ctx.failedSteps = [] ∧
        (∀ req ∈ linearScenario.requiredResults, ∃ v, (req, v) ∈
          (runSteps defaultHandlers (fun _ _ => .ok (7 : Nat)) (fun _ => true)
            linearScenario ["s1", "s2"] (initRunState Nat)).ctx.stepResults) ∧
        linearScenario.successCriteria
          (runSteps defaultHandlers (fun _ _ => .ok (7 : Nat)) (fun _ => true)
            linearScenario ["s1", "s2"]
            (initRunState Nat)).ctx.stepResults = .ok true) :=
  workflowResult_success_iff defaultHandlers (fun _ _ => .ok 7) (fun _ => true)
    linearScenario ["s1", "s2"] rfl

/-! ## Claim C4: retry bound and backoff -/

theorem attemptLoop_fail_spec {V : Type} (outcome : Nat → Except String V)
    (retries : Nat) (hfail : ∀ n, ∃ msg, outcome n = .error msg) :
    ∀ (k a : Nat) (e0 : String),
      (attemptLoop outcome retries (List.range' a k) e0).calls = k ∧
      (attemptLoop outcome retries (List.range' a k) e0).delays =
        ((List.range' a k).filter (fun x => x ≤ retries)).map
          (fun x => 1000 * x) ∧
      (1 ≤ k → ∃ msg, outcome (a + k - 1) = .error msg ∧
        (attemptLoop outcome retries (List.range' a k) e0).outcome =
          .error msg) := by
  intro k
  induction k with
  | zero =>
    intro a e0
    refine ⟨rfl, rfl, ?_⟩
    intro h
    exact absurd h (by omega)
  | succ k ih =>
    intro a e0
    obtain ⟨m, hm⟩ := hfail a
    rw [List.range'_succ]
    obtain ⟨ihc, ihd, iho⟩ := ih (a + 1) m
    constructor
    · simp only [attemptLoop, hm, ihc]
    constructor
    · simp only [attemptLoop, hm, ihd, List.filter_cons]
      by_cases ha : a ≤ retries
      · simp [ha]
      · simp [ha]
    · intro _
      by_cases hk : 1 ≤ k
      · obtain ⟨msg, hmsg, hout⟩ := iho hk
        refine ⟨msg, ?_, ?_⟩
        · have heq : a + 1 + k - 1 = a + (k + 1) - 1 := by omega
          rw [← heq]; exact hmsg
        · simp only [attemptLoop, hm]
          exact hout
      · have hk0 : k = 0 := by omega
        subst hk0
        refine ⟨m, by simpa using hm, ?_⟩
        simp only [attemptLoop, hm]

/-- C4: a step whose handler fails on every attempt invokes the handler
exactly `retries + 1` times, sleeps `1000 * attemptNumber` milliseconds
after each of attempts `1 .. retries`, and is recorded as failed with the
error of the last attempt. -/
theorem executeStep_retry_bound {V : Type} (handlers : List String)
    (outcome : Nat → Except String V) (step : ExecutionStep V)
    (hreg : step.type ∈ handlers)
    (hfail : ∀ n, ∃ msg, outcome n = .error msg) :
    (executeStep handlers outcome step).calls = step.retries + 1 ∧
    (executeStep handlers outcome step).delays =
      (List.range' 1 step.retries).map (fun a => 1000 * a) ∧
    ∃ msg, outcome (step.retries + 1) = .error msg ∧
      (executeStep handlers outcome step).outcome = .error msg := by
  have hspec := attemptLoop_fail_spec outcome step.retries hfail
    (step.retries + 1) 1 "Unknown error"
  have hfilter : (List.range' 1 (step.retries + 1)).filter
      (fun x => x ≤ step.retries) = List.range' 1 step.retries := by
    rw [List.range'_concat, List.filter_append]
    simp only [one_mul]
    have h1 : (List.range' 1 step.retries).filter
        (fun x => x ≤ step.retries) = List.range' 1 step.retries := by
      rw [List.filter_eq_self]
      intro x hx
      rw [List.mem_range'] at hx
      simp only [decide_eq_true_eq]
      omega
    have h2 : ([1 + step.retries].filter (fun x => x ≤ step.retries) :
        List Nat) = [] := by
      simp
    rw [h1, h2, List.append_nil]
  unfold executeStep
  rw [if_pos hreg]
  refine ⟨hspec.1, ?_, ?_⟩
  · rw [hspec.2.1, hfilter]
  · obtain ⟨msg, hm, ho⟩ := hspec.2.2 (by omega)
    have heq : 1 + (step.retries + 1) - 1 = step.retries + 1 := by omega
    rw [heq] at hm
    exact ⟨msg, hm, ho⟩

/-- Step whose handler always fails, for the C4 witness. -/
def failingStep : ExecutionStep Nat :=
  ⟨"f1", "always fails", "generation", [], 2, none⟩

/-- Witness for C4, discharging the registration and always-fails
hypotheses on a concrete step with `retries = 2`. -/
theorem executeStep_retry_bound_witness :
    failingStep.type ∈ defaultHandlers ∧
    ((executeStep defaultHandlers
        (fun _ => (.error "boom" : Except String Nat)) failingStep).calls =
      failingStep.retries + 1 ∧
    (executeStep defaultHandlers
        (fun _ => (.error "boom" : Except String Nat)) failingStep).delays =
      (List.range' 1 failingStep.retries).map (fun a => 1000 * a) ∧
    ∃ msg, (fun _ => (.error "boom" : Except String Nat))
        (failingStep.retries + 1) = .error msg ∧
      (executeStep defaultHandlers
        (fun _ => (.error "boom" : Except String Nat)) failingStep).outcome =
        .error msg) :=
  ⟨by decide,
   executeStep_retry_bound defaultHandlers (fun _ => .error "boom")
     failingStep (by decide) (fun _ => ⟨"boom", rfl⟩)⟩

/-! ## Claim C5: dependency propagation -/

/-- C5: a step `b` reached (loop not stopped) whose dependency check
fails is added to the failed set, its handler is never invoked (no trace
entry carries `b`), and the loop continues with the remaining order from
the dependency-failure bookkeeping state. -/
theorem dependency_propagation {V : Type} (handlers : List String)
    (outcome : String → Nat → Except String V) (hook : String → Bool)
    (scen : ScenarioDefinition V) (pre post : List String) (b : String)
    (step : ExecutionStep V)
    (hpre : b ∉ pre) (hpost : b ∉ post)
    (hstop : (runSteps handlers outcome hook scen pre
      (initRunState V)).stopped = false)
    (hfind : findStep scen.steps b = some step)
    (hskip : shouldSkip step
      (runSteps handlers outcome hook scen pre (initRunState V)).ctx = false)
    (hdeps : step.dependencies.all (fun d =>
      (runSteps handlers outcome hook scen pre
        (initRunState V)).ctx.completedSteps.contains d) = false) :
    b ∈ (runSteps handlers outcome hook scen (pre ++ b :: post)
        (initRunState V)).ctx.failedSteps ∧
    (∀ p ∈ (runSteps handlers outcome hook scen (pre ++ b :: post)
        (initRunState V)).trace, p.1 ≠ b) ∧
    runSteps handlers outcome hook scen (pre ++ b :: post) (initRunState V) =
      runSteps handlers outcome hook scen post
        (markDepFailed
          (runSteps handlers outcome hook scen pre (initRunState V)) b) := by
  have hsplit : runSteps handlers outcome hook scen (pre ++ b :: post)
      (initRunState V) =
      runSteps handlers outcome hook scen post
        (markDepFailed
          (runSteps handlers outcome hook scen pre (initRunState V)) b) := by
    rw [runSteps_append, runSteps_depFail post hstop hfind hskip hdeps]
  refine ⟨?_, ?_, hsplit⟩
  · rw [hsplit]
    apply runSteps_failed_mono
    exact (mem_addSet _ _ _).mpr (Or.inr rfl)
  · intro p hp
    rw [hsplit] at hp
    rcases runSteps_trace_from handlers outcome hook scen post _ p hp with h | h
    · rcases runSteps_trace_from handlers outcome hook scen pre _ p h with h2 | h2
      · exact absurd h2 (by simp [initRunState])
      · intro hb; rw [hb] at h2; exact hpre h2
    · intro hb; rw [hb] at h; exact hpost h

/-- Step set for the C5 and C6 witnesses. -/
def depStepA : ExecutionStep Nat :=
  ⟨"a1", "generate payload", "generation", [], 0, none⟩

/-- Dependent step of the witness workflows. -/
def depStepB : ExecutionStep Nat :=
  ⟨"b1", "analyze payload", "analysis", ["a1"], 0, none⟩

/-- Workflow where the first step fails so the second one has an unmet
dependency. -/
def depScenario : ScenarioDefinition Nat :=
  ⟨"dep", [depStepA, depStepB], [], fun _ => .ok true, false⟩

/-- Handler oracle for the C5 witness: the first step always throws. -/
def depOutcome : String → Nat → Except String Nat :=
  fun stepId _ => if stepId == "a1" then .error "a boom" else .ok 1

/-- Witness for C5: with step `a1` failing, step `b1` is reached with its
dependency unmet; all hypotheses are discharged by evaluation. -/
theorem dependency_propagation_witness :
    "b1" ∈ (runSteps defaultHandlers depOutcome (fun _ => true) depScenario
        (["a1"] ++ "b1" :: []) (initRunState Nat)).ctx.failedSteps ∧
    (∀ p ∈ (runSteps defaultHandlers depOutcome (fun _ => true) depScenario
        (["a1"] ++ "b1" :: []) (initRunState Nat)).trace, p.1 ≠ "b1") ∧
    runSteps defaultHandlers depOutcome (fun _ => true) depScenario
        (["a1"] ++ "b1" :: []) (initRunState Nat) =
      runSteps defaultHandlers depOutcome (fun _ => true) depScenario []
        (markDepFailed
          (runSteps defaultHandlers depOutcome (fun _ => true) depScenario
            ["a1"] (initRunState Nat)) "b1") :=
  dependency_propagation defaultHandlers depOutcome (fun _ => true)
    depScenario ["a1"] [] "b1" depStepB (by decide) (by decide)
    rfl rfl rfl rfl

/-! ## Claim C6: rollback policy -/

theorem foldl_rollbackOne_completed_subset {V : Type} (hook : String → Bool) :
    ∀ (l : List String) (c : ExecutionContext V) (y : String),
      y ∈ (l.foldl (rollbackOne hook) c).completedSteps →
      y ∈ c.completedSteps := by
  intro l
  induction l with
  | nil => intro c y hy; exact hy
  | cons x xs ih =>
    intro c y hy
    rw [List.foldl_cons] at hy
    have := ih (rollbackOne hook c x) y hy
    unfold rollbackOne at this
    split_ifs at this with hx
    · exact List.mem_of_mem_erase this
    · exact this

theorem foldl_rollbackOne_results_subset {V : Type} (hook : String → Bool) :
    ∀ (l : List String) (c : ExecutionContext V) (p : String × V),
      p ∈ (l.foldl (rollbackOne hook) c).stepResults →
      p ∈ c.stepResults := by
  intro l
  induction l with
  | nil => intro c p hp; exact hp
  | cons x xs ih =>
    intro c p hp
    rw [List.foldl_cons] at hp
    have := ih (rollbackOne hook c x) p hp
    unfold rollbackOne at this
    split_ifs at this with hx
    · exact List.mem_of_mem_filter this
    · exact this

theorem rollbackOne_completed_nodup {V : Type} (hook : String → Bool)
    (c : ExecutionContext V) (x : String) (h : c.completedSteps.Nodup) :
    (rollbackOne hook c x).completedSteps.Nodup := by
  unfold rollbackOne
  split_ifs with hx
  · exact h.erase x
  · exact h

theorem foldl_rollbackOne_removes {V : Type} (hook : String → Bool) :
    ∀ (l : List String) (c : ExecutionContext V) (stepId : String),
      stepId ∈ l → hook stepId = true → c.completedSteps.Nodup →
      stepId ∉ (l.foldl (rollbackOne hook) c).completedSteps ∧
      ∀ v, (stepId, v) ∉ (l.foldl (rollbackOne hook) c).stepResults := by
  intro l
  induction l with
  | nil => intro c stepId h; exact absurd h (by simp)
  | cons x xs ih =>
    intro c stepId hmem hhook hnd
    rw [List.foldl_cons]
    by_cases hx : stepId = x
    · subst hx
      constructor
      · intro hcontra
        have := foldl_rollbackOne_completed_subset hook xs _ _ hcontra
        unfold rollbackOne at this
        rw [if_pos hhook] at this
        exact (List.Nodup.mem_erase_iff hnd).mp this |>.1 rfl
      · intro v hcontra
        have := foldl_rollbackOne_results_subset hook xs _ _ hcontra
        unfold rollbackOne at this
        rw [if_pos hhook] at this
        have := List.of_mem_filter this
        simp at this
    · have hmem2 : stepId ∈ xs := by
        rcases List.mem_cons.mp hmem with h | h
        · exact absurd h hx
        · exact h
      exact ih (rollbackOne hook c x) stepId hmem2 hhook
        (rollbackOne_completed_nodup hook c x hnd)

/-- The completed set stays duplicate-free through the whole loop. -/
theorem runSteps_completed_nodup {V : Type} (handlers : List String)
    (outcome : String → Nat → Except String V) (hook : String → Bool)
    (scen : ScenarioDefinition V) (l : List String) (s : RunState V)
    (h : s.ctx.completedSteps.Nodup) :
    (runSteps handlers outcome hook scen l s).ctx.completedSteps.Nodup := by
  induction l generalizing s with
  | nil => exact h
  | cons a rest ih =>
    cases hstop : s.stopped with
    | true => rw [runSteps_stopped _ _ _ _ _ _ hstop]; exact h
    | false =>
      cases hfind : findStep scen.steps a with
      | none => rw [runSteps_notFound _ hstop hfind]; exact ih s h
      | some step =>
        cases hskip : shouldSkip step s.ctx with
        | true => rw [runSteps_skip _ hstop hfind hskip]; exact ih _ h
        | false =>
          cases hdeps : step.dependencies.all
              (fun d => s.ctx.completedSteps.contains d) with
          | false => rw [runSteps_depFail _ hstop hfind hskip hdeps]; exact ih _ h
          | true =>
            cases hout : (executeStep handlers (outcome a) step).outcome with
            | ok v =>
              rw [runSteps_ok _ hstop hfind hskip hdeps hout]
              exact ih _ (addSet_nodup h a)
            | error e =>
              cases hrb : scen.rollbackOnFailure with
              | false =>
                rw [runSteps_err_continue _ hstop hfind hskip hdeps hout hrb]
                exact ih _ h
              | true =>
                rw [runSteps_err_rollback _ hstop hfind hskip hdeps hout hrb]
                dsimp only
                unfold rollbackWorkflow
                dsimp only
                induction ((markFailed (markExecuted s a
                    (executeStep handlers (outcome a) step).calls)
                    a).ctx.completedSteps.reverse) generalizing h with
                | nil => exact h
                | cons x xs ihx => exact (by
                    have hfold : ∀ (l2 : List String) (c : ExecutionContext V),
                        c.completedSteps.Nodup →
                        (l2.foldl (rollbackOne hook) c).completedSteps.Nodup := by
                      intro l2
                      induction l2 with
                      | nil => intro c hc; exact hc
                      | cons z zs ihz =>
                        intro c hc
                        rw [List.foldl_cons]
                        exact ihz _ (rollbackOne_completed_nodup hook c z hc)
                    exact hfold _ _ h)

/-- C6: with `rollbackOnFailure = true`, a step failure halts the loop;
the final state is exactly the rolled-back state, the rollback visits the
completed steps in reverse completion order, every completed step whose
rollback hook succeeds loses its membership and its result even if other
hooks fail, and with the source's always-succeeding hook no completed
step remains. -/
theorem rollback_policy {V : Type} (handlers : List String)
    (outcome : String → Nat → Except String V) (hook : String → Bool)
    (scen : ScenarioDefinition V) (pre post : List String) (b : String)
    (step : ExecutionStep V) (e : String)
    (hrb : scen.rollbackOnFailure = true)
    (hstop : (runSteps handlers outcome hook scen pre
      (initRunState V)).stopped = false)
    (hfind : findStep scen.steps b = some step)
    (hskip : shouldSkip step
      (runSteps handlers outcome hook scen pre (initRunState V)).ctx = false)
    (hdeps : step.dependencies.all (fun d =>
      (runSteps handlers outcome hook scen pre
        (initRunState V)).ctx.completedSteps.contains d) = true)
    (hout : (executeStep handlers (outcome b) step).outcome = .error e) :
    runSteps handlers outcome hook scen (pre ++ b :: post) (initRunState V) =
      { markFailed (markExecuted
          (runSteps handlers outcome hook scen pre (initRunState V)) b
          (executeStep handlers (outcome b) step).calls) b with
        ctx := (rollbackWorkflow hook (markFailed (markExecuted
          (runSteps handlers outcome hook scen pre (initRunState V)) b
          (executeStep handlers (outcome b) step).calls) b).ctx).1,
        stopped := true } ∧
    (rollbackWorkflow hook (markFailed (markExecuted
        (runSteps handlers outcome hook scen pre (initRunState V)) b
        (executeStep handlers (outcome b) step).calls) b).ctx).2 =
      (markFailed (markExecuted
        (runSteps handlers outcome hook scen pre (initRunState V)) b
        (executeStep handlers (outcome b) step).calls)
          b).ctx.completedSteps.reverse ∧
    (∀ stepId ∈ (markFailed (markExecuted
        (runSteps handlers outcome hook scen pre (initRunState V)) b
        (executeStep handlers (outcome b) step).calls) b).ctx.completedSteps,
      hook stepId = true →
      stepId ∉ ((rollbackWorkflow hook (markFailed (markExecuted
        (runSteps handlers outcome hook scen pre (initRunState V)) b
        (executeStep handlers (outcome b) step).calls)
          b).ctx).1).completedSteps ∧
      ∀ v, (stepId, v) ∉ ((rollbackWorkflow hook (markFailed (markExecuted
        (runSteps handlers outcome hook scen pre (initRunState V)) b
        (executeStep handlers (outcome b) step).calls)
          b).ctx).1).stepResults) ∧
    ((∀ x, hook x = true) →
      ((rollbackWorkflow hook (markFailed (markExecuted
        (runSteps handlers outcome hook scen pre (initRunState V)) b
        (executeStep handlers (outcome b) step).calls)
          b).ctx).1).completedSteps = []) := by
  have hnd : (markFailed (markExecuted
      (runSteps handlers outcome hook scen pre (initRunState V)) b
      (executeStep handlers (outcome b) step).calls)
        b).ctx.completedSteps.Nodup := by
    have := runSteps_completed_nodup handlers outcome hook scen pre
      (initRunState V) (by simp [initRunState, initContext])
    exact this
  refine ⟨?_, rfl, ?_, ?_⟩
  · rw [runSteps_append, runSteps_err_rollback post hstop hfind hskip hdeps hout hrb]
  · intro stepId hmem hhook
    exact foldl_rollbackOne_removes hook _ _ stepId
      (by rwa [List.mem_reverse]) hhook hnd
  · intro hall
    rw [List.eq_nil_iff_forall_not_mem]
    intro y hy
    have hymem := foldl_rollbackOne_completed_subset hook _ _ y hy
    exact (foldl_rollbackOne_removes hook _ _ y
      (by rwa [List.mem_reverse]) (hall y) hnd).1 hy

/-- Workflow for the C6 witness: first step succeeds, the dependent step
fails, and rollback is enabled. -/
def rollbackScenario : ScenarioDefinition Nat :=
  ⟨"rb", [depStepA, depStepB], [], fun _ => .ok true, true⟩

/-- Handler oracle for the C6 witness: the dependent step always throws. -/
def rbOutcome : String → Nat → Except String Nat :=
  fun stepId _ => if stepId == "b1" then .error "b boom" else .ok 5

/-- Witness for C6, applying the rollback theorem to the concrete
workflow; every hypothesis is discharged by evaluation. -/
theorem rollback_policy_witness :
    runSteps defaultHandlers rbOutcome (fun _ => true) rollbackScenario
        (["a1"] ++ "b1" :: []) (initRunState Nat) =
      { markFailed (markExecuted
          (runSteps defaultHandlers rbOutcome (fun _ => true) rollbackScenario
            ["a1"] (initRunState Nat)) "b1"
          (executeStep defaultHandlers (rbOutcome "b1") depStepB).calls) "b1" with
        ctx := (rollbackWorkflow (fun _ => true) (markFailed (markExecuted
          (runSteps defaultHandlers rbOutcome (fun _ => true) rollbackScenario
            ["a1"] (initRunState Nat)) "b1"
          (executeStep defaultHandlers (rbOutcome "b1") depStepB).calls)
            "b1").ctx).1,
        stopped := true } ∧
    (rollbackWorkflow (fun _ => true) (markFailed (markExecuted
        (runSteps defaultHandlers rbOutcome (fun _ => true) rollbackScenario
          ["a1"] (initRunState Nat)) "b1"
        (executeStep defaultHandlers (rbOutcome "b1") depStepB).calls)
          "b1").ctx).2 =
      (markFailed (markExecuted
        (runSteps defaultHandlers rbOutcome (fun _ => true) rollbackScenario
          ["a1"] (initRunState Nat)) "b1"
        (executeStep defaultHandlers (rbOutcome "b1") depStepB).calls)
          "b1").ctx.completedSteps.reverse ∧
    (∀ stepId ∈ (markFailed (markExecuted
        (runSteps defaultHandlers rbOutcome (fun _ => true) rollbackScenario
          ["a1"] (initRunState Nat)) "b1"
        (executeStep defaultHandlers (rbOutcome "b1") depStepB).calls)
          "b1").ctx.completedSteps,
      (fun (_ : String) => true) stepId = true →
      stepId ∉ ((rollbackWorkflow (fun _ => true) (markFailed (markExecuted
        (runSteps defaultHandlers rbOutcome (fun _ => true) rollbackScenario
          ["a1"] (initRunState Nat)) "b1"
        (executeStep defaultHandlers (rbOutcome "b1") depStepB).calls)
          "b1").ctx).1).completedSteps ∧
      ∀ v, (stepId, v) ∉ ((rollbackWorkflow (fun _ => true)
        (markFailed (markExecuted
          (runSteps defaultHandlers rbOutcome (fun _ => true) rollbackScenario
            ["a1"] (initRunState Nat)) "b1"
          (executeStep defaultHandlers (rbOutcome "b1") depStepB).calls)
            "b1").ctx).1).stepResults) ∧
    ((∀ x : String, (fun (_ : String) => true) x = true) →
      ((rollbackWorkflow (fun _ => true) (markFailed (markExecuted
        (runSteps defaultHandlers rbOutcome (fun _ => true) rollbackScenario
          ["a1"] (initRunState Nat)) "b1"
        (executeStep defaultHandlers (rbOutcome "b1") depStepB).calls)
          "b1").ctx).1).completedSteps = []) :=
  rollback_policy defaultHandlers rbOutcome (fun _ => true) rollbackScenario
    ["a1"] [] "b1" depStepB "b boom" rfl rfl rfl rfl rfl rfl

/-! ## Metric data generator

Embedding of the `MetricDataGenerator` class.  JS numbers are embedded as
rationals; `Math.random()` draws are an oracle indexed by the point index
and call site, `Math.sin` is an oracle function, both constrained by
boundedness hypotheses where a claim needs them.  The `tags` produced per
point are derived from further random draws and carry no numeric content;
no claim mentions them, so points carry timestamp, value and the
`generated` flag. -/

/-- Shape of the generation request, as constructed by
`MetricConfigBuilder.build` and consumed throughout the generator. -/
structure MetricGenerationConfig where
  type : String
  pattern : String
  duration : ℚ
  baseValue : ℚ
  variance : ℚ
  spikeIntensity : Option ℚ
  degradationRate : Option ℚ

/-- JS `x || d` for an optional numeric field: absent and `0` (falsy)
fall back to the default. -/
def orDefault (x : Option ℚ) (d : ℚ) : ℚ :=
  match x with
  | some v => if v = 0 then d else v
  | none => d

/-- JS `x || d` for a number already known to be present. -/
def orZero (x d : ℚ) : ℚ :=
  if x = 0 then d else x

/-- JS truthiness of an optional numeric field. -/
def optTruthy (x : Option ℚ) : Bool :=
  match x with
  | some v => decide (v ≠ 0)
  | none => false

/-- One emitted sample. -/
structure MetricPoint where
  timestamp : ℚ
  value : ℚ
  generated : Bool
deriving DecidableEq

/-- Derived summary statistics of a stream. -/
structure MetricMetadata where
  totalPoints : Nat
  avgValue : ℚ
  maxValue : ℚ
  minValue : ℚ
  pattern : String
deriving DecidableEq

/-- An emitted stream. -/
structure MetricStream where
  name : String
  type : String
  unit : String
  points : List MetricPoint
  metadata : MetricMetadata
deriving DecidableEq

/-- The pattern-specific mutable state threaded through the generation
loop.  The JS object starts empty; uninitialized numeric fields read
through `||`-style fallbacks behave like `0` here, matching falsiness. -/
structure PatternState where
  spikeFrequency : Nat
  spikeIntensity : ℚ
  inSpike : Bool
  spikeCountdown : Nat
  degradationRate : ℚ
  leakRate : ℚ
  lastGC : ℚ
  fragmentationCycle : Nat
  fragmentationPhase : Nat
  congestionCycle : Nat
  congestionEvent : Nat
deriving DecidableEq

/-- The empty JS state object. -/
def emptyPatternState : PatternState :=
  ⟨0, 0, false, 0, 0, 0, 0, 0, 0, 0, 0⟩

/-- Embedding of `initializePatternState`. -/
def initializePatternState (config : MetricGenerationConfig) : PatternState :=
  match config.pattern with
  | "spike" =>
    { emptyPatternState with
      spikeFrequency := if optTruthy config.spikeIntensity then 30 else 50,
      spikeIntensity := orDefault config.spikeIntensity 3,
      inSpike := false, spikeCountdown := 0 }
  | "degradation" =>
    { emptyPatternState with
      degradationRate := orDefault config.degradationRate (1/1000) }
  | "leak" =>
    { emptyPatternState with
      leakRate := orDefault config.degradationRate (1/500),
      lastGC := config.baseValue }
  | "fragmentation" =>
    { emptyPatternState with
      fragmentationCycle := 30, fragmentationPhase := 0 }
  | "congestion" =>
    { emptyPatternState with
      congestionCycle := 60, congestionEvent := 0 }
  | _ => emptyPatternState

/-- Oracles for the ambient randomness and for `Math.sin`, indexed by the
point index where the draw happens. -/
structure RandomOracle where
  fluct : Nat → ℚ
  frag : Nat → ℚ
  congEvent : Nat → ℚ
  congMult : Nat → ℚ
  sine : ℚ → ℚ

/-- The ranges guaranteed by `Math.random()` and `Math.sin`. -/
def RandomOracle.Bounded (r : RandomOracle) : Prop :=
  (∀ i, 0 ≤ r.fluct i ∧ r.fluct i < 1) ∧
  (∀ i, 0 ≤ r.frag i ∧ r.frag i < 1) ∧
  (∀ i, 0 ≤ r.congEvent i ∧ r.congEvent i < 1) ∧
  (∀ i, 0 ≤ r.congMult i ∧ r.congMult i < 1) ∧
  (∀ x, -1 ≤ r.sine x ∧ r.sine x ≤ 1)

/-- The double value of `Math.PI`, as an exact rational; it only ever
feeds the sine oracle. -/
def piQ : ℚ := 3.141592653589793

/-- Embedding of `generateStableValue`; `rand` is this call's
`Math.random()` draw. -/
def generateStableValue (rand baseValue variance : ℚ) : ℚ :=
  let randomFactor := (rand - 1/2) * 2
  let fluctuation := baseValue * variance * randomFactor * (1/10)
  max 0 (baseValue + fluctuation)

/-- Embedding of `generateSpikeValue` (returns the value and the mutated
state). -/
def generateSpikeValue (rand baseValue variance : ℚ) (st : PatternState)
    (index : Nat) : ℚ × PatternState :=
  let spikeFrequency := if st.spikeFrequency = 0 then 50 else st.spikeFrequency
  let spikeIntensity := orZero st.spikeIntensity 3
  if index % spikeFrequency = 0 then
    (baseValue * spikeIntensity,
     { st with inSpike := true, spikeCountdown := 5 })
  else if st.inSpike ∧ st.spikeCountdown > 0 then
    let countdown := st.spikeCountdown - 1
    let inSpike := if countdown = 0 then false else st.inSpike
    let factor := 1 + (spikeIntensity - 1) * ((countdown : ℚ) / 5)
    (baseValue * factor,
     { st with spikeCountdown := countdown, inSpike := inSpike })
  else
    (generateStableValue rand baseValue (variance * (1/5)), st)

/-- Embedding of `generateDegradationValue`. -/
def generateDegradationValue (rand baseValue variance : ℚ) (st : PatternState)
    (index : Nat) : ℚ :=
  let degradationRate := orZero st.degradationRate (1/1000)
  let currentBase := baseValue * (1 - degradationRate * index)
  max (baseValue * (1/10)) (generateStableValue rand currentBase variance)

/-- Embedding of `generateLeakValue`. -/
def generateLeakValue (rand baseValue variance : ℚ) (st : PatternState)
    (index : Nat) : ℚ × PatternState :=
  let leakRate := orZero st.leakRate (1/500)
  let currentBase := baseValue * (1 + leakRate * index)
  if 0 < index ∧ index % 100 = 0 then
    (currentBase * (7/10), { st with lastGC := currentBase * (7/10) })
  else
    let minValue := orZero st.lastGC baseValue
    (max minValue (generateStableValue rand currentBase variance), st)

/-- Embedding of `generateFragmentationValue`. -/
def generateFragmentationValue (oracle : RandomOracle)
    (rand baseValue variance : ℚ) (st : PatternState) (index : Nat) :
    ℚ × PatternState :=
  let fragmentationCycle :=
    if st.fragmentationCycle = 0 then 30 else st.fragmentationCycle
  let st2 :=
    if index % fragmentationCycle = 0 then
      { st with fragmentationPhase := (⌊oracle.frag index * 3⌋).toNat }
    else st
  let phaseProgress := ((index % fragmentationCycle : Nat) : ℚ) /
    (fragmentationCycle : ℚ)
  let value :=
    match st2.fragmentationPhase with
    | 0 => baseValue * (1 + phaseProgress * (1/2))
    | 1 =>
      if phaseProgress < 1/5 then baseValue * (1 + phaseProgress * 2)
      else baseValue * (7/5 - phaseProgress)
    | 2 => baseValue * (1 + oracle.sine (phaseProgress * piQ * 4) * (3/10))
    | _ => generateStableValue rand baseValue variance
  (value, st2)

/-- Embedding of `generateCongestionValue`. -/
def generateCongestionValue (oracle : RandomOracle)
    (baseValue : ℚ) (st : PatternState) (index : Nat) : ℚ × PatternState :=
  let congestionCycle :=
    if st.congestionCycle = 0 then 60 else st.congestionCycle
  let cycleProgress := ((index % congestionCycle : Nat) : ℚ) /
    (congestionCycle : ℚ)
  let trafficFactor := 1 + oracle.sine (cycleProgress * piQ * 2) * (3/5)
  let st2 :=
    if oracle.congEvent index < 1/20 then { st with congestionEvent := 10 }
    else st
  let (congestionMultiplier, st3) :=
    if 0 < st2.congestionEvent then
      (2 + oracle.congMult index,
       { st2 with congestionEvent := st2.congestionEvent - 1 })
    else (1, st2)
  (baseValue * trafficFactor * congestionMultiplier, st3)

/-- Embedding of `generateValue` (dispatch on the pattern). -/
def generateValue (oracle : RandomOracle) (config : MetricGenerationConfig)
    (st : PatternState) (index : Nat) : ℚ × PatternState :=
  match config.pattern with
  | "stable" =>
    (generateStableValue (oracle.fluct index) config.baseValue config.variance,
     st)
  | "spike" =>
    generateSpikeValue (oracle.fluct index) config.baseValue config.variance
      st index
  | "degradation" =>
    (generateDegradationValue (oracle.fluct index) config.baseValue
      config.variance st index, st)
  | "leak" =>
    generateLeakValue (oracle.fluct index) config.baseValue config.variance
      st index
  | "fragmentation" =>
    generateFragmentationValue oracle (oracle.fluct index) config.baseValue
      config.variance st index
  | "congestion" =>
    generateCongestionValue oracle config.baseValue st index
  | _ =>
    (generateStableValue (oracle.fluct index) config.baseValue config.variance,
     st)

/-- Embedding of `calculateInterval` (milliseconds per sample). -/
def calculateInterval (metricType : String) : ℚ :=
  match metricType with
  | "cpu" => 1000
  | "memory" => 1000
  | "disk" => 5000
  | "network" => 500
  | _ => 1000

/-- Embedding of `getUnitForMetricType`. -/
def getUnitForMetricType (metricType : String) : String :=
  match metricType with
  | "cpu" => "percent"
  | "memory" => "MB"
  | "disk" => "percent"
  | "network" => "bytes/sec"
  | _ => "count"

/-- The `while (currentTime < endTime)` loop of `generateMetricPoints`,
with fuel embedding the unbounded iteration; the entry point supplies
enough fuel for the loop to run to its natural end. -/
def genPointsLoop (oracle : RandomOracle) (config : MetricGenerationConfig)
    (endTime interval : ℚ) :
    Nat → ℚ → Nat → PatternState → List MetricPoint
  | 0, _, _, _ => []
  | fuel + 1, currentTime, index, st =>
    if currentTime < endTime then
      let vs := generateValue oracle config st index
      ⟨currentTime, vs.1, true⟩ ::
        genPointsLoop oracle config endTime interval fuel
          (currentTime + interval) (index + 1) vs.2
    else []

/-- Embedding of `smoothSpikeTail`: the pass walks the interior points
carrying the (possibly already smoothed) previous value. -/
def smoothWalk (prev : ℚ) : List MetricPoint → List MetricPoint
  | [] => []
  | [last] => [last]
  | curr :: next :: rest =>
    let c :=
      if |curr.value - prev| > prev * (1/2) ∧
         |curr.value - next.value| > next.value * (1/2) then
        { curr with value := (prev + next.value) / 2 }
      else curr
    c :: smoothWalk c.value (next :: rest)

/-- Embedding of `smoothSpikeTail`. -/
def smoothSpikeTail (pts : List MetricPoint) : List MetricPoint :=
  match pts with
  | [] => []
  | p0 :: rest => p0 :: smoothWalk p0.value rest

/-- Embedding of `ensureMinimumValues`. -/
def ensureMinimumValues (pts : List MetricPoint) : List MetricPoint :=
  let firstValue := orZero ((pts.head?.map (fun p => p.value)).getD 0) 0
  let minimumValue := firstValue * (1/20)
  pts.map (fun p =>
    if p.value < minimumValue then { p with value := minimumValue } else p)

/-- Embedding of the scan of `validateLeakPattern`, carrying the previous
(point's current) value, the value at the last GC index, and the distance
to it. -/
def leakWalk (prevVal gcVal : ℚ) (gap : Nat) :
    List MetricPoint → List MetricPoint
  | [] => []
  | p :: rest =>
    if p.value < prevVal * (4/5) then
      p :: leakWalk p.value p.value 1 rest
    else if 100 < gap then
      { p with value := gcVal * (7/10) } ::
        leakWalk (gcVal * (7/10)) (gcVal * (7/10)) 1 rest
    else
      p :: leakWalk p.value gcVal (gap + 1) rest

/-- Embedding of `validateLeakPattern`. -/
def validateLeakPattern (pts : List MetricPoint) : List MetricPoint :=
  match pts with
  | [] => []
  | p0 :: rest => p0 :: leakWalk p0.value p0.value 1 rest

/-- Embedding of `applyPatternPostProcessing`. -/
def applyPatternPostProcessing (pts : List MetricPoint) (pattern : String) :
    List MetricPoint :=
  match pattern with
  | "spike" => smoothSpikeTail pts
  | "degradation" => ensureMinimumValues pts
  | "leak" => validateLeakPattern pts
  | _ => pts

/-- Embedding of `generateMetricPoints` (the loop plus the post-processing
pass), started at an explicit start time. -/
def generateMetricPoints (oracle : RandomOracle)
    (config : MetricGenerationConfig) (startTime : ℚ) : List MetricPoint :=
  let totalDuration := config.duration * 1000
  let interval := calculateInterval config.type
  let fuel := (⌈totalDuration / interval⌉).toNat + 1
  applyPatternPostProcessing
    (genPointsLoop oracle config (startTime + totalDuration) interval fuel
      startTime 0 (initializePatternState config))
    config.pattern

/-- JS `Math.max(...values)` over a nonempty list. -/
def maxOfValues : List ℚ → ℚ
  | [] => 0
  | v :: vs => vs.foldl max v

/-- JS `Math.min(...values)` over a nonempty list. -/
def minOfValues : List ℚ → ℚ
  | [] => 0
  | v :: vs => vs.foldl min v

/-- Embedding of `calculateMetadata`. -/
def calculateMetadata (pts : List MetricPoint) (pattern : String) :
    MetricMetadata :=
  match pts with
  | [] => ⟨0, 0, 0, 0, pattern⟩
  | _ =>
    let values := pts.map (fun p => p.value)
    let sum := values.foldl (· + ·) 0
    ⟨pts.length, sum / pts.length, maxOfValues values, minOfValues values,
     pattern⟩

/-- Embedding of `generate` (the error wrapper is omitted: the embedded
body is total). -/
def generate (oracle : RandomOracle) (config : MetricGenerationConfig)
    (startTime : ℚ) : MetricStream :=
  let points := generateMetricPoints oracle config startTime
  let metadata := calculateMetadata points config.pattern
  ⟨config.type ++ "_" ++ config.pattern, config.type,
   getUnitForMetricType config.type, points, metadata⟩

/-! ### Sampling-loop lemmas -/

theorem calculateInterval_pos (metricType : String) :
    0 < calculateInterval metricType := by
  unfold calculateInterval
  split <;> norm_num

theorem genPointsLoop_length (oracle : RandomOracle)
    (config : MetricGenerationConfig) {endTime interval : ℚ}
    (hi : 0 < interval) :
    ∀ (fuel : Nat) (cur : ℚ) (idx : Nat) (st : PatternState),
      (⌈(endTime - cur) / interval⌉).toNat < fuel →
      (genPointsLoop oracle config endTime interval fuel cur idx st).length =
        (⌈(endTime - cur) / interval⌉).toNat := by
  intro fuel
  induction fuel with
  | zero => intro cur idx st h; exact absurd h (by omega)
  | succ n ih =>
    intro cur idx st h
    rw [genPointsLoop]
    split_ifs with hlt
    · have hpos : 0 < (endTime - cur) / interval :=
        div_pos (by linarith) hi
      have hceil : 1 ≤ ⌈(endTime - cur) / interval⌉ := Int.ceil_pos.mpr hpos
      have hstep : (endTime - (cur + interval)) / interval =
          (endTime - cur) / interval - 1 := by
        have harith : endTime - (cur + interval) =
            (endTime - cur) - interval := by ring
        rw [harith, sub_div, div_self (ne_of_gt hi)]
      have hrec := ih (cur + interval) (idx + 1)
        (generateValue oracle config st idx).2 (by
          rw [hstep, Int.ceil_sub_one]
          omega)
      simp only [List.length_cons]
      rw [hrec, hstep, Int.ceil_sub_one]
      omega
    · have hle : (endTime - cur) / interval ≤ 0 :=
        div_nonpos_of_nonpos_of_nonneg (by linarith) (le_of_lt hi)
      have : ⌈(endTime - cur) / interval⌉ ≤ 0 := Int.ceil_le.mpr (by simpa)
      simp only [List.length_nil]
      omega

theorem genPointsLoop_timestamps (oracle : RandomOracle)
    (config : MetricGenerationConfig) {endTime interval : ℚ}
    (hi : 0 < interval) :
    ∀ (fuel : Nat) (cur : ℚ) (idx : Nat) (st : PatternState),
      (⌈(endTime - cur) / interval⌉).toNat < fuel →
      (genPointsLoop oracle config endTime interval fuel cur idx st).map
          (fun p => p.timestamp) =
        (List.range ((⌈(endTime - cur) / interval⌉).toNat)).map
          (fun k : Nat => cur + (k : ℚ) * interval) := by
  intro fuel
  induction fuel with
  | zero => intro cur idx st h; exact absurd h (by omega)
  | succ n ih =>
    intro cur idx st h
    rw [genPointsLoop]
    split_ifs with hlt
    · have hpos : 0 < (endTime - cur) / interval :=
        div_pos (by linarith) hi
      have hceil : 1 ≤ ⌈(endTime - cur) / interval⌉ := Int.ceil_pos.mpr hpos
      have hstep : (endTime - (cur + interval)) / interval =
          (endTime - cur) / interval - 1 := by
        have harith : endTime - (cur + interval) =
            (endTime - cur) - interval := by ring
        rw [harith, sub_div, div_self (ne_of_gt hi)]
      have hrec := ih (cur + interval) (idx + 1)
        (generateValue oracle config st idx).2 (by
          rw [hstep, Int.ceil_sub_one]
          omega)
      have hN : (⌈(endTime - cur) / interval⌉).toNat =
          (⌈(endTime - (cur + interval)) / interval⌉).toNat + 1 := by
        rw [hstep, Int.ceil_sub_one]
        omega
      simp only [List.map_cons]
      rw [hrec, hN, List.range_succ_eq_map, List.map_cons, List.map_map]
      congr 1
      · simp
      · apply List.map_congr_left
        intro k _
        simp only [Function.comp_apply, Nat.succ_eq_add_one]
        push_cast
        ring
    · have hle : (endTime - cur) / interval ≤ 0 :=
        div_nonpos_of_nonpos_of_nonneg (by linarith) (le_of_lt hi)
      have hc : ⌈(endTime - cur) / interval⌉ ≤ 0 := Int.ceil_le.mpr (by simpa)
      have : (⌈(endTime - cur) / interval⌉).toNat = 0 := by omega
      rw [this]
      rfl

/-! ### Post-processing preserves timestamps -/

theorem smoothWalk_timestamps :
    ∀ (l : List MetricPoint) (prev : ℚ),
      (smoothWalk prev l).map (fun p => p.timestamp) =
        l.map (fun p => p.timestamp) := by
  intro l
  induction l with
  | nil => intro prev; rfl
  | cons curr rest ih =>
    intro prev
    cases rest with
    | nil => rfl
    | cons next rest2 =>
      rw [smoothWalk]
      simp only [List.map_cons]
      rw [ih]
      congr 1
      split_ifs <;> rfl

theorem smoothSpikeTail_timestamps (pts : List MetricPoint) :
    (smoothSpikeTail pts).map (fun p => p.timestamp) =
      pts.map (fun p => p.timestamp) := by
  cases pts with
  | nil => rfl
  | cons p0 rest =>
    rw [smoothSpikeTail]
    simp only [List.map_cons]
    rw [smoothWalk_timestamps]

theorem ensureMinimumValues_timestamps (pts : List MetricPoint) :
    (ensureMinimumValues pts).map (fun p => p.timestamp) =
      pts.map (fun p => p.timestamp) := by
  unfold ensureMinimumValues
  rw [List.map_map]
  apply List.map_congr_left
  intro p _
  simp only [Function.comp_apply]
  split_ifs <;> rfl

theorem leakWalk_timestamps :
    ∀ (l : List MetricPoint) (prevVal gcVal : ℚ) (gap : Nat),
      (leakWalk prevVal gcVal gap l).map (fun p => p.timestamp) =
        l.map (fun p => p.timestamp) := by
  intro l
  induction l with
  | nil => intro prevVal gcVal gap; rfl
  | cons p rest ih =>
    intro prevVal gcVal gap
    rw [leakWalk]
    split_ifs <;> simp only [List.map_cons] <;> rw [ih]

theorem validateLeakPattern_timestamps (pts : List MetricPoint) :
    (validateLeakPattern pts).map (fun p => p.timestamp) =
      pts.map (fun p => p.timestamp) := by
  cases pts with
  | nil => rfl
  | cons p0 rest =>
    rw [validateLeakPattern]
    simp only [List.map_cons]
    rw [leakWalk_timestamps]

theorem applyPatternPostProcessing_timestamps (pts : List MetricPoint)
    (pattern : String) :
    (applyPatternPostProcessing pts pattern).map (fun p => p.timestamp) =
      pts.map (fun p => p.timestamp) := by
  unfold applyPatternPostProcessing
  split
  · exact smoothSpikeTail_timestamps pts
  · exact ensureMinimumValues_timestamps pts
  · exact validateLeakPattern_timestamps pts
  · rfl

theorem applyPatternPostProcessing_length (pts : List MetricPoint)
    (pattern : String) :
    (applyPatternPostProcessing pts pattern).length = pts.length := by
  have h := applyPatternPostProcessing_timestamps pts pattern
  have := congrArg List.length h
  simpa using this

/-! ## Claim C8: sampling cadence -/

/-- C8: for every metric type and positive duration the emitted stream
has exactly `⌈duration_ms / interval⌉` points, whose timestamps form the
arithmetic progression starting at the start time with one interval per
step (hence non-decreasing), and every timestamp is strictly below
`start + duration_ms`. -/
theorem metric_sampling (oracle : RandomOracle)
    (config : MetricGenerationConfig) (startTime : ℚ)
    (hdur : 0 < config.duration) :
    (generate oracle config startTime).points.length =
      (⌈config.duration * 1000 / calculateInterval config.type⌉).toNat ∧
    (generate oracle config startTime).points.map (fun p => p.timestamp) =
      (List.range
          ((⌈config.duration * 1000 / calculateInterval config.type⌉).toNat)).map
        (fun k : Nat => startTime + (k : ℚ) * calculateInterval config.type) ∧
    (∀ p ∈ (generate oracle config startTime).points,
      p.timestamp < startTime + config.duration * 1000) ∧
    List.Chain' (fun p q : MetricPoint => p.timestamp ≤ q.timestamp)
      (generate oracle config startTime).points := by
  have hi : 0 < calculateInterval config.type := calculateInterval_pos _
  set D := config.duration * 1000 with hD
  set i := calculateInterval config.type with hiDef
  have hDpos : 0 < D := by positivity
  have hend : startTime + D - startTime = D := by ring
  have hpts : (generate oracle config startTime).points =
      applyPatternPostProcessing
        (genPointsLoop oracle config (startTime + D) i
          ((⌈D / i⌉).toNat + 1) startTime 0 (initializePatternState config))
        config.pattern := rfl
  have hts : (generate oracle config startTime).points.map
      (fun p => p.timestamp) =
      (List.range ((⌈D / i⌉).toNat)).map
        (fun k : Nat => startTime + (k : ℚ) * i) := by
    rw [hpts, applyPatternPostProcessing_timestamps]
    have := genPointsLoop_timestamps oracle config hi ((⌈D / i⌉).toNat + 1)
      startTime 0 (initializePatternState config) (by rw [hend]; omega)
    rw [hend] at this
    exact this
  have hlen : (generate oracle config startTime).points.length =
      (⌈D / i⌉).toNat := by
    have := congrArg List.length hts
    simpa using this
  refine ⟨hlen, hts, ?_, ?_⟩
  · intro p hp
    have hmem : p.timestamp ∈ (generate oracle config startTime).points.map
        (fun p => p.timestamp) := List.mem_map_of_mem _ hp
    rw [hts] at hmem
    obtain ⟨k, hk, hke⟩ := List.mem_map.mp hmem
    rw [List.mem_range] at hk
    rw [← hke]
    have h1 : (k : ℤ) < ⌈D / i⌉ := by
      have h0 : (k : ℤ) < ((⌈D / i⌉).toNat : ℤ) := by exact_mod_cast hk
      omega
    have hklt : (k : ℚ) < D / i := by
      have := Int.lt_ceil.mp h1
      exact_mod_cast this
    have hlt2 : (k : ℚ) * i < D := by
      have := mul_lt_mul_of_pos_right hklt hi
      rwa [div_mul_cancel₀ D (ne_of_gt hi)] at this
    linarith
  · rw [← List.chain'_map (R := fun a b : ℚ => a ≤ b)
      (f := fun p : MetricPoint => p.timestamp), hts]
    rw [List.chain'_map]
    cases hN : (⌈D / i⌉).toNat with
    | zero => exact List.chain'_nil
    | succ m =>
      rw [List.chain'_range_succ]
      intro j hj
      push_cast
      nlinarith [hi]

/-! ## Claim C7: non-negativity of generated values -/

/-- Witness oracle with all draws at `0`. -/
def zeroOracle : RandomOracle :=
  ⟨fun _ => 0, fun _ => 0, fun _ => 0, fun _ => 0, fun _ => 0⟩

theorem zeroOracle_bounded : zeroOracle.Bounded := by
  unfold RandomOracle.Bounded zeroOracle
  norm_num

/-- Parts of the pattern state that the non-negativity argument needs:
they are established by `initializePatternState` and preserved by every
pattern function. -/
def PSInv (st : PatternState) : Prop :=
  0 ≤ st.spikeIntensity ∧ 0 ≤ st.leakRate ∧ st.spikeCountdown ≤ 5

theorem orDefault_nonneg {x : Option ℚ} {d : ℚ}
    (hx : ∀ v, x = some v → 0 ≤ v) (hd : 0 ≤ d) : 0 ≤ orDefault x d := by
  cases x with
  | none => exact hd
  | some v =>
    show 0 ≤ if v = 0 then d else v
    split_ifs with h
    · exact hd
    · exact hx v rfl

theorem orZero_nonneg {x d : ℚ} (hx : 0 ≤ x) (hd : 0 ≤ d) : 0 ≤ orZero x d := by
  unfold orZero
  split_ifs with h
  · exact hd
  · exact hx

theorem initializePatternState_inv (config : MetricGenerationConfig)
    (hspike : ∀ v, config.spikeIntensity = some v → 0 ≤ v)
    (hdeg : ∀ v, config.degradationRate = some v → 0 ≤ v) :
    PSInv (initializePatternState config) := by
  unfold initializePatternState PSInv emptyPatternState
  split <;>
    refine ⟨?_, ?_, ?_⟩ <;>
    first
      | exact le_refl 0
      | exact orDefault_nonneg hspike (by norm_num)
      | exact orDefault_nonneg hdeg (by norm_num)
      | omega
      | norm_num

theorem generateStableValue_nonneg (rand baseValue variance : ℚ) :
    0 ≤ generateStableValue rand baseValue variance :=
  le_max_left 0 _

theorem generateSpikeValue_nonneg (rand baseValue variance : ℚ)
    (st : PatternState) (index : Nat) (hb : 0 ≤ baseValue) (hinv : PSInv st) :
    0 ≤ (generateSpikeValue rand baseValue variance st index).1 := by
  obtain ⟨hI, _, hcd⟩ := hinv
  have hI2 : 0 ≤ orZero st.spikeIntensity 3 := orZero_nonneg hI (by norm_num)
  have hfac : 0 ≤ baseValue *
      (1 + (orZero st.spikeIntensity 3 - 1) *
        (((st.spikeCountdown - 1 : Nat) : ℚ) / 5)) := by
    apply mul_nonneg hb
    have hcd2 : ((st.spikeCountdown - 1 : Nat) : ℚ) ≤ 4 := by
      have h5 : st.spikeCountdown - 1 ≤ 4 := by omega
      exact_mod_cast h5
    have hcd3 : (0 : ℚ) ≤ ((st.spikeCountdown - 1 : Nat) : ℚ) := by positivity
    have ht0 : (0 : ℚ) ≤ ((st.spikeCountdown - 1 : Nat) : ℚ) / 5 := by
      positivity
    have ht1 : ((st.spikeCountdown - 1 : Nat) : ℚ) / 5 ≤ 4 / 5 := by
      rw [div_le_div_iff₀ (by norm_num) (by norm_num)]
      linarith
    nlinarith [mul_nonneg hI2 ht0]
  unfold generateSpikeValue
  dsimp only
  split_ifs
  · exact mul_nonneg hb hI2
  · exact hfac
  · exact hfac
  · exact generateStableValue_nonneg _ _ _
  · exact mul_nonneg hb hI2
  · exact hfac
  · exact hfac
  · exact generateStableValue_nonneg _ _ _

theorem generateDegradationValue_nonneg (rand baseValue variance : ℚ)
    (st : PatternState) (index : Nat) :
    0 ≤ generateDegradationValue rand baseValue variance st index :=
  le_trans (generateStableValue_nonneg _ _ _) (le_max_right _ _)

theorem generateLeakValue_nonneg (rand baseValue variance : ℚ)
    (st : PatternState) (index : Nat) (hb : 0 ≤ baseValue) (hinv : PSInv st) :
    0 ≤ (generateLeakValue rand baseValue variance st index).1 := by
  obtain ⟨_, hr, _⟩ := hinv
  have hr2 : 0 ≤ orZero st.leakRate (1/500) := orZero_nonneg hr (by norm_num)
  unfold generateLeakValue
  dsimp only
  split_ifs with h1
  · dsimp only
    have h3 : 0 ≤ orZero st.leakRate (1/500) * (index : ℚ) :=
      mul_nonneg hr2 (by positivity)
    nlinarith [mul_nonneg hb h3]
  · dsimp only
    exact le_trans (generateStableValue_nonneg _ _ _) (le_max_right _ _)

theorem generateFragmentationValue_nonneg (oracle : RandomOracle)
    (hsin : ∀ x, -1 ≤ oracle.sine x ∧ oracle.sine x ≤ 1)
    (rand baseValue variance : ℚ) (st : PatternState) (index : Nat)
    (hb : 0 ≤ baseValue) :
    0 ≤ (generateFragmentationValue oracle rand baseValue variance st index).1 := by
  unfold generateFragmentationValue
  dsimp only
  set cycle := if st.fragmentationCycle = 0 then 30 else st.fragmentationCycle
    with hcyc
  set st2 := (if index % cycle = 0 then
      { st with fragmentationPhase := (⌊oracle.frag index * 3⌋).toNat }
    else st) with hst2
  set prog := ((index % cycle : Nat) : ℚ) / (cycle : ℚ) with hprogDef
  have hcpos : 0 < cycle := by
    rw [hcyc]; split_ifs with h <;> omega
  have hprog0 : (0 : ℚ) ≤ prog := by
    rw [hprogDef]; positivity
  have hprog1 : prog < 1 := by
    rw [hprogDef, div_lt_one (by exact_mod_cast hcpos)]
    exact_mod_cast Nat.mod_lt index hcpos
  rcases hph : st2.fragmentationPhase with _ | _ | _ | n <;>
    simp only [hph]
  · nlinarith
  · split_ifs with h
    · nlinarith
    · nlinarith
  · have hs := hsin (prog * piQ * 4)
    nlinarith [hs.1, hs.2]
  · exact generateStableValue_nonneg _ _ _

theorem generateCongestionValue_nonneg (oracle : RandomOracle)
    (hsin : ∀ x, -1 ≤ oracle.sine x ∧ oracle.sine x ≤ 1)
    (hmult : ∀ i, 0 ≤ oracle.congMult i ∧ oracle.congMult i < 1)
    (baseValue : ℚ) (st : PatternState) (index : Nat) (hb : 0 ≤ baseValue) :
    0 ≤ (generateCongestionValue oracle baseValue st index).1 := by
  unfold generateCongestionValue
  dsimp only
  set cycle := if st.congestionCycle = 0 then 60 else st.congestionCycle
    with hcyc
  set prog := ((index % cycle : Nat) : ℚ) / (cycle : ℚ) with hprogDef
  have hs := hsin (prog * piQ * 2)
  have htf : (0 : ℚ) ≤ 1 + oracle.sine (prog * piQ * 2) * (3/5) := by
    nlinarith [hs.1, hs.2]
  have hm := hmult index
  split_ifs <;> dsimp only <;> nlinarith [hm.1, mul_nonneg hb htf]

theorem generateValue_nonneg (oracle : RandomOracle)
    (hb2 : oracle.Bounded) (config : MetricGenerationConfig)
    (st : PatternState) (index : Nat)
    (hb : 0 ≤ config.baseValue) (hinv : PSInv st) :
    0 ≤ (generateValue oracle config st index).1 := by
  obtain ⟨_, _, _, hmult, hsin⟩ := hb2
  unfold generateValue
  split
  · exact generateStableValue_nonneg _ _ _
  · exact generateSpikeValue_nonneg _ _ _ _ _ hb hinv
  · exact generateDegradationValue_nonneg _ _ _ _ _
  · exact generateLeakValue_nonneg _ _ _ _ _ hb hinv
  · exact generateFragmentationValue_nonneg oracle hsin _ _ _ _ _ hb
  · exact generateCongestionValue_nonneg oracle hsin hmult _ _ _ hb
  · exact generateStableValue_nonneg _ _ _

theorem generateValue_preserves_inv (oracle : RandomOracle)
    (config : MetricGenerationConfig) (st : PatternState) (index : Nat)
    (hinv : PSInv st) : PSInv (generateValue oracle config st index).2 := by
  obtain ⟨hI, hr, hcd⟩ := hinv
  unfold generateValue
  split
  · exact ⟨hI, hr, hcd⟩
  · unfold generateSpikeValue
    dsimp only
    split_ifs <;> refine ⟨hI, hr, ?_⟩ <;> dsimp only <;> omega
  · exact ⟨hI, hr, hcd⟩
  · unfold generateLeakValue
    dsimp only
    split_ifs <;> exact ⟨hI, hr, hcd⟩
  · unfold generateFragmentationValue
    dsimp only
    split_ifs <;> exact ⟨hI, hr, hcd⟩
  · unfold generateCongestionValue
    dsimp only
    split_ifs <;> exact ⟨hI, hr, hcd⟩
  · exact ⟨hI, hr, hcd⟩

theorem genPointsLoop_values_nonneg (oracle : RandomOracle)
    (hbd : oracle.Bounded) (config : MetricGenerationConfig)
    (hb : 0 ≤ config.baseValue) {endTime interval : ℚ} :
    ∀ (fuel : Nat) (cur : ℚ) (idx : Nat) (st : PatternState), PSInv st →
      ∀ p ∈ genPointsLoop oracle config endTime interval fuel cur idx st,
        0 ≤ p.value := by
  intro fuel
  induction fuel with
  | zero => intro cur idx st _ p hp; exact absurd hp (by simp [genPointsLoop])
  | succ n ih =>
    intro cur idx st hinv p hp
    rw [genPointsLoop] at hp
    split_ifs at hp with hlt
    · rcases List.mem_cons.mp hp with rfl | hp2
      · exact generateValue_nonneg oracle hbd config st idx hb hinv
      · exact ih _ _ _ (generateValue_preserves_inv oracle config st idx hinv)
          p hp2
    · exact absurd hp (by simp)

theorem orZero_zero (x : ℚ) : orZero x 0 = x := by
  unfold orZero
  split_ifs with h
  · exact h.symm
  · rfl

theorem smoothWalk_values_nonneg :
    ∀ (l : List MetricPoint) (prev : ℚ), 0 ≤ prev →
      (∀ p ∈ l, 0 ≤ p.value) → ∀ p ∈ smoothWalk prev l, 0 ≤ p.value := by
  intro l
  induction l with
  | nil => intro prev _ _ p hp; exact absurd hp (by simp [smoothWalk])
  | cons curr rest ih =>
    intro prev hprev hall p hp
    cases rest with
    | nil =>
      rw [smoothWalk] at hp
      simp only [List.mem_singleton] at hp
      subst hp
      exact hall p (by simp)
    | cons next rest2 =>
      rw [smoothWalk] at hp
      have hnext : 0 ≤ next.value := hall next (by simp)
      have hcv : 0 ≤ (if |curr.value - prev| > prev * (1/2) ∧
          |curr.value - next.value| > next.value * (1/2) then
            { curr with value := (prev + next.value) / 2 }
          else curr).value := by
        split_ifs with hc
        · show 0 ≤ (prev + next.value) / 2
          positivity
        · exact hall curr (by simp)
      rcases List.mem_cons.mp hp with rfl | hp2
      · exact hcv
      · exact ih _ hcv (fun q hq => hall q (List.mem_cons_of_mem _ hq)) p hp2

theorem smoothSpikeTail_values_nonneg (pts : List MetricPoint)
    (hall : ∀ p ∈ pts, 0 ≤ p.value) :
    ∀ p ∈ smoothSpikeTail pts, 0 ≤ p.value := by
  cases pts with
  | nil => intro p hp; exact absurd hp (by simp [smoothSpikeTail])
  | cons p0 rest =>
    intro p hp
    rw [smoothSpikeTail] at hp
    rcases List.mem_cons.mp hp with rfl | hp2
    · exact hall p (by simp)
    · exact smoothWalk_values_nonneg rest p0.value (hall p0 (by simp))
        (fun q hq => hall q (List.mem_cons_of_mem _ hq)) p hp2

theorem ensureMinimumValues_values_nonneg (pts : List MetricPoint)
    (hall : ∀ p ∈ pts, 0 ≤ p.value) :
    ∀ p ∈ ensureMinimumValues pts, 0 ≤ p.value := by
  intro p hp
  simp only [ensureMinimumValues] at hp
  obtain ⟨q, hq, hpq⟩ := List.mem_map.mp hp
  have hmin : 0 ≤ orZero ((pts.head?.map (fun p => p.value)).getD 0) 0 *
      (1/20) := by
    rw [orZero_zero]
    cases pts with
    | nil => simp
    | cons p0 rest =>
      have h0 := hall p0 (by simp)
      show 0 ≤ p0.value * (1/20)
      positivity
  rw [← hpq]
  split_ifs with hc
  · exact hmin
  · exact hall q hq

theorem leakWalk_values_nonneg :
    ∀ (l : List MetricPoint) (prevVal gcVal : ℚ) (gap : Nat), 0 ≤ gcVal →
      (∀ p ∈ l, 0 ≤ p.value) → ∀ p ∈ leakWalk prevVal gcVal gap l,
        0 ≤ p.value := by
  intro l
  induction l with
  | nil => intro prevVal gcVal gap _ _ p hp; exact absurd hp (by simp [leakWalk])
  | cons q rest ih =>
    intro prevVal gcVal gap hgc hall p hp
    have hq : 0 ≤ q.value := hall q (by simp)
    have hrest : ∀ r ∈ rest, 0 ≤ r.value :=
      fun r hr => hall r (List.mem_cons_of_mem _ hr)
    rw [leakWalk] at hp
    split_ifs at hp with h1 h2
    · rcases List.mem_cons.mp hp with rfl | hp2
      · exact hq
      · exact ih _ _ _ hq hrest p hp2
    · rcases List.mem_cons.mp hp with rfl | hp2
      · show 0 ≤ gcVal * (7/10)
        positivity
      · exact ih _ _ _ (by positivity) hrest p hp2
    · rcases List.mem_cons.mp hp with rfl | hp2
      · exact hq
      · exact ih _ _ _ hgc hrest p hp2

theorem validateLeakPattern_values_nonneg (pts : List MetricPoint)
    (hall : ∀ p ∈ pts, 0 ≤ p.value) :
    ∀ p ∈ validateLeakPattern pts, 0 ≤ p.value := by
  cases pts with
  | nil => intro p hp; exact absurd hp (by simp [validateLeakPattern])
  | cons p0 rest =>
    intro p hp
    rw [validateLeakPattern] at hp
    rcases List.mem_cons.mp hp with rfl | hp2
    · exact hall p (by simp)
    · exact leakWalk_values_nonneg rest p0.value p0.value 1
        (hall p0 (by simp))
        (fun q hq => hall q (List.mem_cons_of_mem _ hq)) p hp2

theorem applyPatternPostProcessing_values_nonneg (pts : List MetricPoint)
    (pattern : String) (hall : ∀ p ∈ pts, 0 ≤ p.value) :
    ∀ p ∈ applyPatternPostProcessing pts pattern, 0 ≤ p.value := by
  unfold applyPatternPostProcessing
  split
  · exact smoothSpikeTail_values_nonneg pts hall
  · exact ensureMinimumValues_values_nonneg pts hall
  · exact validateLeakPattern_values_nonneg pts hall
  · exact hall

/-- C7 (amended): with a bounded randomness source, a non-negative base
value and variance, and non-negative optional `spikeIntensity` and
`degradationRate` parameters, every point of the emitted stream —
including after pattern-specific post-processing — has a non-negative
value.  (Values are exact rationals in this model, so no NaN or infinity
can arise.) -/
theorem generated_values_nonneg (oracle : RandomOracle)
    (hbd : oracle.Bounded) (config : MetricGenerationConfig) (startTime : ℚ)
    (hbase : 0 ≤ config.baseValue) (hvar : 0 ≤ config.variance)
    (hspike : ∀ v, config.spikeIntensity = some v → 0 ≤ v)
    (hdeg : ∀ v, config.degradationRate = some v → 0 ≤ v) :
    ∀ p ∈ (generate oracle config startTime).points, 0 ≤ p.value := by
  intro p hp
  have hraw : ∀ q ∈ genPointsLoop oracle config
      (startTime + config.duration * 1000) (calculateInterval config.type)
      ((⌈config.duration * 1000 / calculateInterval config.type⌉).toNat + 1)
      startTime 0 (initializePatternState config), 0 ≤ q.value :=
    genPointsLoop_values_nonneg oracle hbd config hbase _ _ _ _
      (initializePatternState_inv config hspike hdeg)
  exact applyPatternPostProcessing_values_nonneg _ config.pattern hraw p hp

/-- Configuration exhibiting the counterexample to C7 as stated: a
negative `spikeIntensity` with a non-negative base value and variance. -/
def negSpikeConfig : MetricGenerationConfig :=
  ⟨"cpu", "spike", 1, 1, 0, some (-1), none⟩

/-- C7 counterexample: with baseValue `1 ≥ 0` and variance `0 ≥ 0` and a
bounded randomness source, the spike pattern emits a negative value when
the caller passes `spikeIntensity = -1`, refuting the claim as stated. -/
theorem spike_negative_value_counterexample :
    (0 ≤ negSpikeConfig.baseValue ∧ 0 ≤ negSpikeConfig.variance ∧
      zeroOracle.Bounded) ∧
    ∃ p ∈ (generate zeroOracle negSpikeConfig 0).points, p.value < 0 := by
  have hpts : (generate zeroOracle negSpikeConfig 0).points =
      [⟨0, -1, true⟩] := by
    show applyPatternPostProcessing (genPointsLoop zeroOracle negSpikeConfig
      (0 + negSpikeConfig.duration * 1000)
      (calculateInterval negSpikeConfig.type)
      ((⌈negSpikeConfig.duration * 1000 /
          calculateInterval negSpikeConfig.type⌉).toNat + 1)
      0 0 (initializePatternState negSpikeConfig)) negSpikeConfig.pattern = _
    norm_num [genPointsLoop, generateValue, negSpikeConfig,
      initializePatternState, generateSpikeValue, orZero, orDefault,
      calculateInterval, applyPatternPostProcessing, smoothSpikeTail,
      smoothWalk]
  refine ⟨⟨by norm_num [negSpikeConfig], by norm_num [negSpikeConfig],
    zeroOracle_bounded⟩, ?_⟩
  rw [hpts]
  exact ⟨⟨0, -1, true⟩, by simp, by norm_num⟩

/-- Witness for C7 (amended) on a concrete leak configuration with all
hypotheses discharged. -/
def leakConfig : MetricGenerationConfig :=
  ⟨"memory", "leak", 2, 100, 1/10, none, some (1/100)⟩

/-- Witness for C7 (amended). -/
theorem generated_values_nonneg_witness :
    (0 ≤ leakConfig.baseValue ∧ 0 ≤ leakConfig.variance ∧
      zeroOracle.Bounded) ∧
    ∀ p ∈ (generate zeroOracle leakConfig 0).points, 0 ≤ p.value :=
  ⟨⟨by norm_num [leakConfig], by norm_num [leakConfig], zeroOracle_bounded⟩,
   generated_values_nonneg zeroOracle zeroOracle_bounded leakConfig 0
    (by norm_num [leakConfig]) (by norm_num [leakConfig])
    (fun v hv => by simp [leakConfig] at hv)
    (fun v hv => by
      simp only [leakConfig] at hv
      cases hv
      norm_num)⟩

/-- Concrete configuration for the C8 witness. -/
def stableConfig : MetricGenerationConfig :=
  ⟨"cpu", "stable", 3, 50, 1/10, none, none⟩

/-- Witness for C8: the sampling-cadence theorem at a concrete stable
configuration of three seconds on the cpu interval. -/
theorem metric_sampling_witness :
    0 < stableConfig.duration ∧
    ((generate zeroOracle stableConfig 0).points.length =
        (⌈stableConfig.duration * 1000 /
            calculateInterval stableConfig.type⌉).toNat ∧
      (generate zeroOracle stableConfig 0).points.map (fun p => p.timestamp) =
        (List.range ((⌈stableConfig.duration * 1000 /
            calculateInterval stableConfig.type⌉).toNat)).map
          (fun k : Nat => 0 + (k : ℚ) * calculateInterval stableConfig.type) ∧
      (∀ p ∈ (generate zeroOracle stableConfig 0).points,
        p.timestamp < 0 + stableConfig.duration * 1000) ∧
      List.Chain' (fun p q : MetricPoint => p.timestamp ≤ q.timestamp)
        (generate zeroOracle stableConfig 0).points) :=
  ⟨by norm_num [stableConfig],
   metric_sampling zeroOracle stableConfig 0 (by norm_num [stableConfig])⟩

/-! ## Claim C9: leak-pattern garbage collection and floor -/

/-- The leak rate the pattern functions effectively use: the state field
is `config.degradationRate || 0.002`, and `generateLeakValue` reads it
back through another `|| 0.002` fallback. -/
def effLeakRate (config : MetricGenerationConfig) : ℚ :=
  orZero (orDefault config.degradationRate (1/500)) (1/500)

/-- The value of a garbage-collection point at index `i`: 70% of the
grown base `baseValue * (1 + leakRate * i)`. -/
def leakGCValue (config : MetricGenerationConfig) (i : Nat) : ℚ :=
  config.baseValue * (1 + effLeakRate config * i) * (7/10)

/-- The floor in effect at index `i` as the spec words it: the most
recent post-GC value, starting at `baseValue` before the first GC. -/
def specLeakFloor (config : MetricGenerationConfig) : Nat → ℚ
  | 0 => config.baseValue
  | n + 1 =>
    if 0 < n ∧ n % 100 = 0 then leakGCValue config n
    else specLeakFloor config n

theorem generateValue_leak (oracle : RandomOracle)
    (config : MetricGenerationConfig) (st : PatternState) (index : Nat)
    (hpat : config.pattern = "leak") :
    generateValue oracle config st index =
      generateLeakValue (oracle.fluct index) config.baseValue config.variance
        st index := by
  unfold generateValue
  rw [hpat]
  rfl

theorem specLeakFloor_succ (config : MetricGenerationConfig) (n : Nat) :
    specLeakFloor config (n + 1) =
      if 0 < n ∧ n % 100 = 0 then leakGCValue config n
      else specLeakFloor config n := rfl

theorem leak_loop_values (oracle : RandomOracle)
    (config : MetricGenerationConfig) (hpat : config.pattern = "leak")
    (hbase : 0 ≤ config.baseValue) {endTime interval : ℚ} :
    ∀ (fuel : Nat) (cur : ℚ) (n : Nat) (st : PatternState),
      st.leakRate = orDefault config.degradationRate (1/500) →
      st.lastGC = specLeakFloor config n →
      ∀ (j : Nat) (p : MetricPoint),
        (genPointsLoop oracle config endTime interval fuel cur n st)[j]? =
          some p →
        (0 < n + j ∧ (n + j) % 100 = 0 →
          p.value = leakGCValue config (n + j)) ∧
        (¬(0 < n + j ∧ (n + j) % 100 = 0) →
          specLeakFloor config (n + j) ≤ p.value) := by
  intro fuel
  induction fuel with
  | zero =>
    intro cur n st _ _ j p hp
    exact absurd hp (by simp [genPointsLoop])
  | succ f ih =>
    intro cur n st hrate hgc j p hp
    rw [genPointsLoop] at hp
    split_ifs at hp with hlt
    · cases j with
      | zero =>
        rw [List.getElem?_cons_zero, Option.some_inj] at hp
        subst hp
        have hv : (generateValue oracle config st n).1 =
            (generateLeakValue (oracle.fluct n) config.baseValue
              config.variance st n).1 := by
          rw [generateValue_leak oracle config st n hpat]
        constructor
        · intro hgcI
          simp only [Nat.add_zero] at hgcI
          show (generateValue oracle config st n).1 =
            leakGCValue config (n + 0)
          rw [hv]
          unfold generateLeakValue
          dsimp only
          rw [if_pos hgcI]
          dsimp only
          simp only [Nat.add_zero]
          rw [hrate]
          unfold leakGCValue effLeakRate
          rfl
        · intro hngc
          simp only [Nat.add_zero] at hngc ⊢
          show specLeakFloor config n ≤ (generateValue oracle config st n).1
          rw [hv]
          unfold generateLeakValue
          dsimp only
          rw [if_neg hngc]
          dsimp only
          refine le_trans ?_ (le_max_left _ _)
          rw [hgc]
          unfold orZero
          split_ifs with h0
          · rw [h0]
            exact hbase
          · exact le_refl _
      | succ k =>
        rw [List.getElem?_cons_succ] at hp
        have hrate2 : (generateValue oracle config st n).2.leakRate =
            orDefault config.degradationRate (1/500) := by
          rw [generateValue_leak oracle config st n hpat]
          unfold generateLeakValue
          dsimp only
          split_ifs
          · exact hrate
          · exact hrate
        have hgc2 : (generateValue oracle config st n).2.lastGC =
            specLeakFloor config (n + 1) := by
          rw [generateValue_leak oracle config st n hpat]
          unfold generateLeakValue
          dsimp only
          by_cases hgcI : 0 < n ∧ n % 100 = 0
          · rw [if_pos hgcI]
            show config.baseValue * (1 + orZero st.leakRate (1/500) * n) *
              (7/10) = specLeakFloor config (n + 1)
            rw [hrate]
            show leakGCValue config n = specLeakFloor config (n + 1)
            rw [specLeakFloor_succ, if_pos hgcI]
          · rw [if_neg hgcI]
            show st.lastGC = specLeakFloor config (n + 1)
            rw [hgc, specLeakFloor_succ, if_neg hgcI]
        have := ih (cur + interval) (n + 1)
          (generateValue oracle config st n).2 hrate2 hgc2 k p hp
        have harith : n + 1 + k = n + (k + 1) := by omega
        rwa [harith] at this
    · exact absurd hp (by simp)

/-- C9: for the leak pattern, the generation loop's point at every index
`i` with `i > 0` and `i % 100 = 0` carries exactly the
garbage-collection value `baseValue * (1 + leakRate * i) * 0.7` (the
effective leak rate being `degradationRate` with the source's `|| 0.002`
fallbacks), and every point between two GC events is at least the most
recent post-GC value, the floor starting at `baseValue` before the first
GC. -/
theorem leak_gc_and_floor (oracle : RandomOracle)
    (config : MetricGenerationConfig) (hpat : config.pattern = "leak")
    (hbase : 0 ≤ config.baseValue) {endTime interval : ℚ}
    (fuel : Nat) (startTime : ℚ) (j : Nat) (p : MetricPoint)
    (hp : (genPointsLoop oracle config endTime interval fuel startTime 0
        (initializePatternState config))[j]? = some p) :
    (0 < j ∧ j % 100 = 0 → p.value = leakGCValue config j) ∧
    (¬(0 < j ∧ j % 100 = 0) → specLeakFloor config j ≤ p.value) := by
  have h0 : (initializePatternState config).leakRate =
      orDefault config.degradationRate (1/500) := by
    unfold initializePatternState
    rw [hpat]
    rfl
  have h1 : (initializePatternState config).lastGC =
      specLeakFloor config 0 := by
    unfold initializePatternState
    rw [hpat]
    rfl
  have := leak_loop_values oracle config hpat hbase fuel startTime 0
    (initializePatternState config) h0 h1 j p hp
  simpa using this

/-- Witness for C9: the loop on a concrete leak configuration emits
`⟨0, 100, true⟩` at index 0, a non-GC index, and the theorem's floor
bound holds there. -/
theorem leak_gc_and_floor_witness :
    (leakConfig.pattern = "leak" ∧ 0 ≤ leakConfig.baseValue ∧
      (genPointsLoop zeroOracle leakConfig 1000 1000 1 0 0
          (initializePatternState leakConfig))[0]? =
        some ⟨0, 100, true⟩) ∧
    ((0 < 0 ∧ 0 % 100 = 0 →
        (⟨0, 100, true⟩ : MetricPoint).value = leakGCValue leakConfig 0) ∧
      (¬(0 < 0 ∧ 0 % 100 = 0) →
        specLeakFloor leakConfig 0 ≤
          (⟨0, 100, true⟩ : MetricPoint).value)) := by
  have hp : (genPointsLoop zeroOracle leakConfig 1000 1000 1 0 0
      (initializePatternState leakConfig))[0]? = some ⟨0, 100, true⟩ := by
    norm_num [genPointsLoop, generateValue, leakConfig, zeroOracle,
      initializePatternState, generateLeakValue, generateStableValue,
      orZero, orDefault]
  exact ⟨⟨rfl, by norm_num [leakConfig], hp⟩,
    leak_gc_and_floor zeroOracle leakConfig rfl (by norm_num [leakConfig])
      1 0 0 ⟨0, 100, true⟩ hp⟩

/-! ## Claim C10: metadata aggregates -/

theorem foldl_max_mem (l : List ℚ) :
    ∀ a : ℚ, l.foldl max a = a ∨ l.foldl max a ∈ l := by
  induction l with
  | nil => intro a; exact .inl rfl
  | cons b t ih =>
    intro a
    rcases ih (max a b) with h | h
    · rcases max_choice a b with hc | hc
      · exact .inl (by rw [List.foldl_cons, h, hc])
      · refine .inr ?_
        rw [List.foldl_cons, h, hc]
        exact List.mem_cons_self b t
    · exact .inr (List.mem_cons_of_mem _ h)

theorem le_foldl_max (l : List ℚ) :
    ∀ a : ℚ, a ≤ l.foldl max a ∧ ∀ v ∈ l, v ≤ l.foldl max a := by
  induction l with
  | nil => intro a; exact ⟨le_refl a, by simp⟩
  | cons b t ih =>
    intro a
    obtain ⟨h1, h2⟩ := ih (max a b)
    refine ⟨le_trans (le_max_left a b) h1, ?_⟩
    intro v hv
    rcases List.mem_cons.mp hv with rfl | hv
    · exact le_trans (le_max_right a v) h1
    · exact h2 v hv

theorem foldl_min_mem (l : List ℚ) :
    ∀ a : ℚ, l.foldl min a = a ∨ l.foldl min a ∈ l := by
  induction l with
  | nil => intro a; exact .inl rfl
  | cons b t ih =>
    intro a
    rcases ih (min a b) with h | h
    · rcases min_choice a b with hc | hc
      · exact .inl (by rw [List.foldl_cons, h, hc])
      · refine .inr ?_
        rw [List.foldl_cons, h, hc]
        exact List.mem_cons_self b t
    · exact .inr (List.mem_cons_of_mem _ h)

theorem foldl_min_le (l : List ℚ) :
    ∀ a : ℚ, l.foldl min a ≤ a ∧ ∀ v ∈ l, l.foldl min a ≤ v := by
  induction l with
  | nil => intro a; exact ⟨le_refl a, by simp⟩
  | cons b t ih =>
    intro a
    obtain ⟨h1, h2⟩ := ih (min a b)
    refine ⟨le_trans h1 (min_le_left a b), ?_⟩
    intro v hv
    rcases List.mem_cons.mp hv with rfl | hv
    · exact le_trans h1 (min_le_right a v)
    · exact h2 v hv

theorem maxOfValues_spec (v : ℚ) (vs : List ℚ) :
    maxOfValues (v :: vs) ∈ v :: vs ∧
      ∀ w ∈ v :: vs, w ≤ maxOfValues (v :: vs) := by
  rw [show maxOfValues (v :: vs) = vs.foldl max v from rfl]
  constructor
  · rcases foldl_max_mem vs v with h | h
    · rw [h]; exact List.mem_cons_self v vs
    · exact List.mem_cons_of_mem _ h
  · intro w hw
    obtain ⟨h1, h2⟩ := le_foldl_max vs v
    rcases List.mem_cons.mp hw with rfl | hw
    · exact h1
    · exact h2 w hw

theorem minOfValues_spec (v : ℚ) (vs : List ℚ) :
    minOfValues (v :: vs) ∈ v :: vs ∧
      ∀ w ∈ v :: vs, minOfValues (v :: vs) ≤ w := by
  rw [show minOfValues (v :: vs) = vs.foldl min v from rfl]
  constructor
  · rcases foldl_min_mem vs v with h | h
    · rw [h]; exact List.mem_cons_self v vs
    · exact List.mem_cons_of_mem _ h
  · intro w hw
    obtain ⟨h1, h2⟩ := foldl_min_le vs v
    rcases List.mem_cons.mp hw with rfl | hw
    · exact h1
    · exact h2 w hw

theorem foldl_add_eq_sum (l : List ℚ) :
    ∀ a : ℚ, l.foldl (· + ·) a = a + l.sum := by
  induction l with
  | nil => intro a; simp
  | cons b t ih =>
    intro a
    rw [List.foldl_cons, ih (a + b), List.sum_cons]
    ring

/-- C10: a non-positive duration yields an empty stream with all-zero
metadata aggregates; the metadata's point count always equals the number
of points; and for a non-empty stream the average is the sum of the
values over the count and the max/min aggregates are members of the
value list bounding it from above and below. -/
theorem metadata_aggregates (oracle : RandomOracle)
    (config : MetricGenerationConfig) (startTime : ℚ) :
    (config.duration ≤ 0 →
      (generate oracle config startTime).points = [] ∧
      (generate oracle config startTime).metadata =
        ⟨0, 0, 0, 0, config.pattern⟩) ∧
    (generate oracle config startTime).metadata.totalPoints =
      (generate oracle config startTime).points.length ∧
    ((generate oracle config startTime).points ≠ [] →
      ((generate oracle config startTime).metadata.avgValue =
        ((generate oracle config startTime).points.map
            (fun p => p.value)).sum /
          (generate oracle config startTime).points.length ∧
       (generate oracle config startTime).metadata.maxValue ∈
         (generate oracle config startTime).points.map (fun p => p.value) ∧
       (∀ v ∈ (generate oracle config startTime).points.map
           (fun p => p.value),
         v ≤ (generate oracle config startTime).metadata.maxValue) ∧
       (generate oracle config startTime).metadata.minValue ∈
         (generate oracle config startTime).points.map (fun p => p.value) ∧
       (∀ v ∈ (generate oracle config startTime).points.map
           (fun p => p.value),
         (generate oracle config startTime).metadata.minValue ≤ v))) := by
  have hmd : (generate oracle config startTime).metadata =
      calculateMetadata (generate oracle config startTime).points
        config.pattern := rfl
  refine ⟨?_, ?_, ?_⟩
  · intro hdur
    have hD : config.duration * 1000 ≤ 0 := by nlinarith
    have hloop : genPointsLoop oracle config
        (startTime + config.duration * 1000) (calculateInterval config.type)
        ((⌈config.duration * 1000 / calculateInterval config.type⌉).toNat + 1)
        startTime 0 (initializePatternState config) = [] := by
      rw [genPointsLoop]
      rw [if_neg]
      exact not_lt.mpr (by linarith)
    have hpts : (generate oracle config startTime).points = [] := by
      show applyPatternPostProcessing
        (genPointsLoop oracle config (startTime + config.duration * 1000)
          (calculateInterval config.type)
          ((⌈config.duration * 1000 /
              calculateInterval config.type⌉).toNat + 1)
          startTime 0 (initializePatternState config))
        config.pattern = []
      rw [hloop]
      have := applyPatternPostProcessing_length ([] : List MetricPoint)
        config.pattern
      simpa [List.length_eq_zero] using this
    refine ⟨hpts, ?_⟩
    rw [hmd, hpts]
    rfl
  · rw [hmd]
    rcases (generate oracle config startTime).points with _ | ⟨q, qs⟩
    · rfl
    · rfl
  · intro hne
    rcases hc : (generate oracle config startTime).points with _ | ⟨q, qs⟩
    · exact absurd hc hne
    · rw [hmd, hc]
      have hmax := maxOfValues_spec q.value (qs.map (fun p => p.value))
      have hmin := minOfValues_spec q.value (qs.map (fun p => p.value))
      rw [List.map_cons]
      refine ⟨?_, ?_, ?_, ?_, ?_⟩
      · show ((q :: qs).map (fun p => p.value)).foldl (· + ·) 0 /
          ((q :: qs).length : ℚ) =
          ((q :: qs).map (fun p => p.value)).sum / ((q :: qs).length : ℚ)
        rw [foldl_add_eq_sum, zero_add]
      · exact hmax.1
      · exact hmax.2
      · exact hmin.1
      · exact hmin.2

end IMFTest
